import Mathlib

/-!
The unisex bathroom arbiter of `unisex_bathroom.c`.

A shallow embedding of the shared state of `unisex_bathroom.c` (the ring buffer
`waiting_queue` / `queue_front` / `queue_size`, the two occupancy counters and
`last_exit_time`) and of the functions that touch it: `enqueue`, `dequeue`,
`front_of_queue`, `enter_bathroom` and `leave_bathroom`.

Modelling conventions.

* A C `int` is a Lean `Int`; the C operator `%` truncates towards zero and is
  `Int.tmod`.  Signed overflow (undefined behaviour in C) is outside the model.
* The array `waiting_queue[MAX_QUEUE_SIZE]` is a map from slot numbers to
  `Person`; a zero-initialised global holds `Person{0, 0}` in every slot.
* Every access to the shared state happens with `bathroom_lock` held, so a
  critical section is one atomic transition.  `pthread_cond_wait` ends the
  critical section of `enter_bathroom`; the thread continues from the loop
  guard in a later transition.
* `time(NULL)` is an argument `now` of the transition that reads the clock.
-/

namespace UnisexBathroom

/-! ## Constants and data (lines 7-30) -/

def MAX_CAPACITY : Int := 3
def MAX_QUEUE_SIZE : Int := 100
def INACTIVITY_TIMEOUT : Int := 2

/-- The struct `Person` of lines 16-19: `gender` is 1 for a man, 2 for a woman. -/
structure Person where
  id : Int
  gender : Int
deriving DecidableEq, Repr

/-- The global variables of lines 22-30. -/
structure State where
  waiting_queue : Nat → Person
  queue_size : Int
  queue_front : Int
  men_in_bathroom : Int
  women_in_bathroom : Int
  last_exit_time : Int

/-- The globals as initialised at lines 22-29, with `last_exit_time` as set by
`main` (line 164) to the start time `t0`. -/
def State.init (t0 : Int) : State :=
  { waiting_queue := fun _ => ⟨0, 0⟩
    queue_size := 0
    queue_front := 0
    men_in_bathroom := 0
    women_in_bathroom := 0
    last_exit_time := t0 }

/-- Read of `waiting_queue[i]`. -/
def readSlot (q : Nat → Person) (i : Int) : Person := q i.toNat

/-- Write of `waiting_queue[i]` (both fields). -/
def writeSlot (q : Nat → Person) (i : Int) (p : Person) : Nat → Person :=
  fun j => if j = i.toNat then p else q j

/-! ## Queue management (lines 33-56) -/

/-- The function `enqueue` of lines 33-39. -/
def enqueue (id gender : Int) (s : State) : State :=
  if s.queue_size < MAX_QUEUE_SIZE then
    { s with
      waiting_queue :=
        writeSlot s.waiting_queue ((s.queue_front + s.queue_size).tmod MAX_QUEUE_SIZE)
          ⟨id, gender⟩
      queue_size := s.queue_size + 1 }
  else s

/-- The function `dequeue` of lines 41-49: the returned `Person` and the new
globals. -/
def dequeue (s : State) : Person × State :=
  if s.queue_size > 0 then
    (readSlot s.waiting_queue s.queue_front,
      { s with
        queue_front := (s.queue_front + 1).tmod MAX_QUEUE_SIZE
        queue_size := s.queue_size - 1 })
  else (⟨0, 0⟩, s)

/-- The function `front_of_queue` of lines 51-56. -/
def front_of_queue (s : State) : Person :=
  if s.queue_size > 0 then readSlot s.waiting_queue s.queue_front else ⟨0, 0⟩

/-- The entries between `queue_front` and `queue_front + queue_size`, head first. -/
def contents (s : State) : List Person :=
  (List.range s.queue_size.toNat).map fun (k : Nat) =>
    readSlot s.waiting_queue ((s.queue_front + (k : Int)).tmod MAX_QUEUE_SIZE)

/-- The index ranges under which the ring buffer is used. -/
def QueueWF (s : State) : Prop :=
  0 ≤ s.queue_front ∧ s.queue_front < MAX_QUEUE_SIZE ∧
    0 ≤ s.queue_size ∧ s.queue_size ≤ MAX_QUEUE_SIZE

instance QueueWF.decidable (s : State) : Decidable (QueueWF s) :=
  inferInstanceAs (Decidable (0 ≤ s.queue_front ∧ s.queue_front < MAX_QUEUE_SIZE ∧
    0 ≤ s.queue_size ∧ s.queue_size ≤ MAX_QUEUE_SIZE))

/-! ## The arbiter (lines 58-100) -/

/-- The guard of the `while` loop of `enter_bathroom`, lines 63-64. -/
def wait_condition (gender : Int) (s : State) : Bool :=
  (gender == 1 &&
      (decide (s.women_in_bathroom > 0) || decide (s.men_in_bathroom ≥ MAX_CAPACITY) ||
        (front_of_queue s).gender != 1)) ||
    (gender == 2 &&
      (decide (s.men_in_bathroom > 0) || decide (s.women_in_bathroom ≥ MAX_CAPACITY) ||
        (front_of_queue s).gender != 2))

/-- Lines 67-74 of `enter_bathroom`, the code after the loop: the `Person` that
`dequeue()` returns (the code discards it) and the new globals. -/
def enter_bathroom_entry (gender : Int) (s : State) : Person × State :=
  let r := dequeue s
  if gender = 1 then
    (r.1, { r.2 with men_in_bathroom := r.2.men_in_bathroom + 1 })
  else
    (r.1, { r.2 with women_in_bathroom := r.2.women_in_bathroom + 1 })

/-- How a critical section of `enter_bathroom` ends: the function runs to its
end (`admitted`, with the dequeued `Person`), or the thread suspends in
`pthread_cond_wait` (`blocked`). -/
inductive Outcome where
  | admitted (removed : Person) (s : State)
  | blocked (s : State)

/-- The globals at the end of the critical section. -/
def Outcome.state : Outcome → State
  | .admitted _ s => s
  | .blocked s => s

/-- Whether the critical section ended in admission. -/
def Outcome.isAdmitted : Outcome → Bool
  | .admitted _ _ => true
  | .blocked _ => false

/-- The function `enter_bathroom` from the loop guard on (lines 63-76): what a
thread does when `pthread_cond_wait` returns. -/
def enter_bathroom_resume (gender : Int) (s : State) : Outcome :=
  if wait_condition gender s then .blocked s
  else .admitted (enter_bathroom_entry gender s).1 (enter_bathroom_entry gender s).2

/-- The function `enter_bathroom` of lines 58-77 from its entry to the end of
its first critical section. -/
def enter_bathroom (id gender : Int) (s : State) : Outcome :=
  enter_bathroom_resume gender (enqueue id gender s)

/-- The function `leave_bathroom` of lines 79-100 called at clock time `now`:
the new globals, and whether `pthread_cond_broadcast` is called. -/
def leave_bathroom (gender : Int) (now : Int) (s : State) : State × Bool :=
  let s1 : State :=
    if gender = 1 then { s with men_in_bathroom := s.men_in_bathroom - 1 }
    else { s with women_in_bathroom := s.women_in_bathroom - 1 }
  let s2 : State :=
    if s1.men_in_bathroom = 0 ∧ s1.women_in_bathroom = 0 ∧ s1.queue_size = 0 then
      { s1 with last_exit_time := now }
    else s1
  (s2, (gender == 1 && decide (s2.men_in_bathroom = 0)) ||
        (gender == 2 && decide (s2.women_in_bathroom = 0)))

/-- The occupancy counter of a category: `men_in_bathroom` for 1, otherwise
`women_in_bathroom` (the `else` branches of lines 70-74 and 83-87). -/
def count (gender : Int) (s : State) : Int :=
  if gender = 1 then s.men_in_bathroom else s.women_in_bathroom

/-- The counter of the other category. -/
def oppositeCount (gender : Int) (s : State) : Int :=
  if gender = 1 then s.women_in_bathroom else s.men_in_bathroom

/-! ## Threads and executions

The threads `man` and `woman` (lines 103-130) call `enter_bathroom(id, g)` and
later `leave_bathroom(g)` with the same `g`.  An execution is a sequence of
critical sections. -/

/-- Where a requester thread is. -/
inductive Phase where
  /-- The thread is suspended in `pthread_cond_wait`; `signalled` records that a
  broadcast has reached it since it suspended. -/
  | waiting (signalled : Bool)
  /-- The thread is between `enter_bathroom` and `leave_bathroom`. -/
  | inside
  /-- The thread has returned from `leave_bathroom`. -/
  | done
deriving DecidableEq, Repr

/-- A requester thread: the arguments of its `enter_bathroom` call, its phase,
and whether its `enqueue` stored an entry (`queue_size < MAX_QUEUE_SIZE` held). -/
structure Thread where
  id : Int
  gender : Int
  phase : Phase
  stored : Bool
deriving DecidableEq, Repr

/-- The globals, the requester threads in the order their `enter_bathroom`
calls acquired the lock, and the log of admissions: the index of the admitted
thread and the `Person` its `dequeue()` returned, oldest first. -/
structure Sys where
  st : State
  threads : List Thread
  admissions : List (Nat × Person)

/-- The system at program start. -/
def Sys.init (t0 : Int) : Sys :=
  { st := State.init t0, threads := [], admissions := [] }

/-- One critical section, at clock time `now`. -/
inductive Event where
  /-- A new thread calls `enter_bathroom(id, gender)`. -/
  | arrive (now : Int) (id gender : Int)
  /-- The suspended thread number `t` returns from `pthread_cond_wait`. -/
  | wake (now : Int) (t : Nat)
  /-- The thread number `t`, which is inside, calls `leave_bathroom` with its
  own category. -/
  | leave (now : Int) (t : Nat)
deriving DecidableEq, Repr

/-- The callers of lines 106 and 121 pass category 1 or 2. -/
def Event.valid : Event → Prop
  | .arrive _ _ g => g = 1 ∨ g = 2
  | _ => True

instance Event.decidableValid : (e : Event) → Decidable e.valid
  | .arrive _ _ g => inferInstanceAs (Decidable (g = 1 ∨ g = 2))
  | .wake _ _ => isTrue trivial
  | .leave _ _ => isTrue trivial

/-- The effect of `pthread_cond_broadcast` on one thread. -/
def Thread.signal (th : Thread) : Thread :=
  match th.phase with
  | .waiting _ => { th with phase := .waiting true }
  | _ => th

/-- One transition.  With `spurious = false` a suspended thread runs only after
a broadcast has reached it; with `spurious = true` it may also return from
`pthread_cond_wait` at any time, as POSIX allows.  The result is `none` when
the event cannot happen in `s`. -/
def step (spurious : Bool) (s : Sys) : Event → Option Sys
  | .arrive _ id g =>
    let stored := decide (s.st.queue_size < MAX_QUEUE_SIZE)
    match enter_bathroom id g s.st with
    | .blocked st1 =>
      some { st := st1
             threads := s.threads ++ [⟨id, g, .waiting false, stored⟩]
             admissions := s.admissions }
    | .admitted p st1 =>
      some { st := st1
             threads := s.threads ++ [⟨id, g, .inside, stored⟩]
             admissions := s.admissions ++ [(s.threads.length, p)] }
  | .wake _ t =>
    match s.threads[t]? with
    | some th =>
      match th.phase with
      | .waiting signalled =>
        if spurious || signalled then
          match enter_bathroom_resume th.gender s.st with
          | .blocked st1 =>
            some { st := st1
                   threads := s.threads.set t { th with phase := .waiting false }
                   admissions := s.admissions }
          | .admitted p st1 =>
            some { st := st1
                   threads := s.threads.set t { th with phase := .inside }
                   admissions := s.admissions ++ [(t, p)] }
        else none
      | _ => none
    | none => none
  | .leave now t =>
    match s.threads[t]? with
    | some th =>
      if th.phase = .inside then
        let r := leave_bathroom th.gender now s.st
        let ths := s.threads.set t { th with phase := .done }
        some { st := r.1
               threads := if r.2 then ths.map Thread.signal else ths
               admissions := s.admissions }
      else none
    | none => none

/-- A sequence of transitions. -/
def run (spurious : Bool) (s : Sys) : List Event → Option Sys
  | [] => some s
  | e :: es => (step spurious s e).bind fun s1 => run spurious s1 es

/-- The states of the executions whose requesters have category 1 or 2. -/
def Reachable (spurious : Bool) (t0 : Int) (s : Sys) : Prop :=
  ∃ es : List Event, (∀ e ∈ es, e.valid) ∧ run spurious (Sys.init t0) es = some s

/-- The number of threads of a category that are inside. -/
def insideCount (gender : Int) (ths : List Thread) : Nat :=
  ths.countP fun th => decide (th.phase = .inside) && decide (th.gender = gender)

/-- The `Person` entries that the threads' `enqueue` calls stored, in call order. -/
def storedEntries (ths : List Thread) : List Person :=
  (ths.filter fun th => th.stored).map fun th => ⟨th.id, th.gender⟩

/-- The `Person` values returned by the `dequeue()` calls, in call order. -/
def removedEntries (s : Sys) : List Person := s.admissions.map Prod.snd

/-- The state after the events `es` from program start (the start state when
some event of `es` cannot happen). -/
def afterTrace (spurious : Bool) (t0 : Int) (es : List Event) : Sys :=
  (run spurious (Sys.init t0) es).getD (Sys.init t0)

/-- What the scenarios observe of a state: the phases of the threads, the two
counters, the queue entries, and the loop guard for categories 1 and 2. -/
structure Observation where
  phases : List Phase
  men : Int
  women : Int
  queue : List Person
  guard1 : Bool
  guard2 : Bool
deriving DecidableEq, Repr

/-- The observation of a state. -/
def observe (s : Sys) : Observation :=
  { phases := s.threads.map Thread.phase
    men := s.st.men_in_bathroom
    women := s.st.women_in_bathroom
    queue := contents s.st
    guard1 := wait_condition 1 s.st
    guard2 := wait_condition 2 s.st }

/-- Two men suspended behind a woman; her release wakes both and the later man
takes the lock first. -/
def raceTrace : List Event :=
  [.arrive 0 1 2, .arrive 1 2 1, .arrive 2 3 1, .leave 3 0, .wake 4 2]

/-- A man suspended behind a woman; after her release a second man calls
`enter_bathroom` before the first one runs again. -/
def bargeTrace : List Event :=
  [.arrive 0 1 2, .arrive 1 2 1, .leave 2 0, .arrive 3 3 1]

/-- The scenario with `MAX_CAPACITY = 3`: A1, A2, A3, A4 (category 1) and B1
(category 2) arrive, A1, A2, A3 leave, A4 runs and leaves, B1 runs. -/
def capacityScenario : List Event :=
  [.arrive 0 1 1, .arrive 1 2 1, .arrive 2 3 1, .arrive 3 4 1, .arrive 4 5 2,
    .leave 5 0, .leave 6 1, .leave 7 2, .wake 8 3, .leave 9 3, .wake 10 4]

/-- A woman is inside while 100 men arrive and fill the queue; she leaves. -/
def fillTrace : List Event :=
  [.arrive 0 0 2] ++ (List.range 100).map (fun i => Event.arrive 1 ((i : Int) + 1) 1) ++
    [.leave 2 0]

/-- After `fillTrace`, one more man arrives. -/
def overflowTrace : List Event := fillTrace ++ [.arrive 3 101 1]

/-- The contribution of one thread to `insideCount`. -/
def insideInd (g : Int) (th : Thread) : Nat :=
  if th.phase = .inside ∧ th.gender = g then 1 else 0

/-- The category of thread `t`, if it exists. -/
def genderAt (l : List Thread) (t : Nat) : Option Int := (l[t]?).map Thread.gender

/-- What every execution with categories 1 and 2 maintains. -/
structure Inv (s : Sys) : Prop where
  wf : QueueWF s.st
  men : s.st.men_in_bathroom = insideCount 1 s.threads
  women : s.st.women_in_bathroom = insideCount 2 s.threads
  excl : s.st.men_in_bathroom = 0 ∨ s.st.women_in_bathroom = 0
  capM : s.st.men_in_bathroom ≤ MAX_CAPACITY
  capW : s.st.women_in_bathroom ≤ MAX_CAPACITY
  genders : ∀ th ∈ s.threads, th.gender = 1 ∨ th.gender = 2
  fifo : storedEntries s.threads = removedEntries s ++ contents s.st
  adm : ∀ a ∈ s.admissions, genderAt s.threads a.1 = some a.2.gender

/-! ## The inactivity test (lines 150-157) and timed executions -/

/-- The condition of line 152 with the clock reading `now` and the threshold
`threshold` (the source passes `INACTIVITY_TIMEOUT`).  `difftime` of two clock
readings in whole seconds is their difference. -/
def inactivity_check (threshold now : Int) (s : State) : Bool :=
  decide (now - s.last_exit_time ≥ threshold) && decide (s.men_in_bathroom = 0) &&
    decide (s.women_in_bathroom = 0) && decide (s.queue_size = 0)

/-- Nobody is inside and the queue is empty. -/
def isIdle (s : State) : Bool :=
  decide (s.men_in_bathroom = 0) && decide (s.women_in_bathroom = 0) &&
    decide (s.queue_size = 0)

/-- The clock reading of an event. -/
def Event.now : Event → Int
  | .arrive now _ _ => now
  | .wake now _ => now
  | .leave now _ => now

/-- Whether the transition from `s` to `s1` by `e` is an admission or a release:
`e` is a `leave`, or the admission log has grown. -/
def isActivity (s s1 : Sys) : Event → Bool
  | .leave _ _ => true
  | _ => decide (s1.admissions.length ≠ s.admissions.length)

/-- The clock reading of the most recent admission or release in the events
`es` run from `s`; `last` when there is none. -/
def lastActivity (spurious : Bool) : Sys → Int → List Event → Int
  | _, last, [] => last
  | s, last, e :: es =>
    match step spurious s e with
    | none => last
    | some s1 => lastActivity spurious s1 (if isActivity s s1 e then e.now else last) es

/-- The clock reading since which nobody has been inside and the queue has been
empty with no admission and no release, after the events `es` run from `s`;
`none` when somebody is inside or the queue is not empty.  `q` is the value
before `es`. -/
def quietSince (spurious : Bool) : Sys → Option Int → List Event → Option Int
  | _, q, [] => q
  | s, q, e :: es =>
    match step spurious s e with
    | none => q
    | some s1 =>
      quietSince spurious s1
        (if isIdle s1.st then
          (if isActivity s s1 e then some e.now else some (q.getD e.now))
        else none) es

/-- The link between `last_exit_time` and the two clocks of an execution. -/
structure IdleInv (s : Sys) (la : Int) (q : Option Int) : Prop where
  last : isIdle s.st = true → s.st.last_exit_time = la
  quiet : isIdle s.st = true → q = some s.st.last_exit_time
  busy : isIdle s.st = false → q = none

/-- A man arrives at clock reading 3 and leaves at 5. -/
def idleTrace : List Event := [.arrive 3 1 1, .leave 5 0]

/-! ## The ring buffer against a bounded list -/

/-- A call of one of the two mutating queue functions. -/
inductive QueueOp where
  | enq (id gender : Int)
  | deq
deriving DecidableEq, Repr

/-- The globals after the calls `ops` run on the globals `s`. -/
def applyOps : State → List QueueOp → State
  | s, [] => s
  | s, .enq id g :: ops => applyOps (enqueue id g s) ops
  | s, .deq :: ops => applyOps (dequeue s).2 ops

/-- The `Person` values that the `dequeue` calls among `ops`, run on the globals
`s`, return, in call order. -/
def dequeued : State → List QueueOp → List Person
  | _, [] => []
  | s, .enq id g :: ops => dequeued (enqueue id g s) ops
  | s, .deq :: ops => (dequeue s).1 :: dequeued (dequeue s).2 ops

/-- The bounded list of the specification, append at the tail: a list of at
most `MAX_QUEUE_SIZE` entries, unchanged when it is full. -/
def listEnqueue (p : Person) (l : List Person) : List Person :=
  if (l.length : Int) < MAX_QUEUE_SIZE then l ++ [p] else l

/-- The bounded list of the specification, remove at the head: the removed
entry (`Person{0, 0}` when there is none) and the rest. -/
def listDequeue : List Person → Person × List Person
  | [] => (⟨0, 0⟩, [])
  | p :: l => (p, l)

/-- The bounded list after the calls `ops` run on the bounded list `l`. -/
def listOps : List Person → List QueueOp → List Person
  | l, [] => l
  | l, .enq id g :: ops => listOps (listEnqueue ⟨id, g⟩ l) ops
  | l, .deq :: ops => listOps (listDequeue l).2 ops

/-- The entries removed by the calls `ops` run on the bounded list `l`. -/
def listDequeued : List Person → List QueueOp → List Person
  | _, [] => []
  | l, .enq id g :: ops => listDequeued (listEnqueue ⟨id, g⟩ l) ops
  | l, .deq :: ops => (listDequeue l).1 :: listDequeued (listDequeue l).2 ops

/-- A run whose tail index wraps around the end of the array: 100 entries, one
removed, one more stored in slot 0, then three removed. -/
def wrapOps : List QueueOp :=
  (List.range 100).map (fun i => QueueOp.enq (i : Int) 1) ++
    [.deq, .enq 100 2, .deq, .deq, .deq]

/-! ## Further scenarios -/

/-- Three men are inside and a fourth is suspended at the head of the queue;
one man leaves; then twice a new man arrives and a man leaves. -/
def lostWakeupTrace : List Event :=
  [.arrive 0 1 1, .arrive 1 2 1, .arrive 2 3 1, .arrive 3 4 1, .leave 4 0,
    .arrive 5 5 1, .leave 6 1, .arrive 7 6 1, .leave 8 2]

/-- A man is inside and a requester with category 3 arrives. -/
def bypassTrace : List Event := [.arrive 0 1 1, .arrive 1 2 3]

/-- Four requesters with category 3 arrive. -/
def bypassCapacityTrace : List Event :=
  [.arrive 0 1 3, .arrive 1 2 3, .arrive 2 3 3, .arrive 3 4 3]

/-- From thread number `k` on, `n` times: a new man arrives and then leaves. -/
def starveCycles : Nat → Nat → List Event
  | _, 0 => []
  | k, n + 1 => .arrive 5 ((k : Int) + 1) 1 :: .leave 6 k :: starveCycles (k + 1) n

/-- The first five events of `lostWakeupTrace` followed by `n` cycles in which a
new man arrives and leaves. -/
def starveTrace (n : Nat) : List Event := lostWakeupTrace.take 5 ++ starveCycles 4 n

/-- The states of the cycles of `starveTrace`: two men are inside, the queue
holds one entry of category 1, there are `k` threads, and thread 3, the man
with id 4, is suspended with no broadcast pending. -/
def Starving (s : Sys) (k : Nat) : Prop :=
  s.st.men_in_bathroom = 2 ∧ s.st.women_in_bathroom = 0 ∧ QueueWF s.st ∧
    s.st.queue_size = 1 ∧ (front_of_queue s.st).gender = 1 ∧ s.threads.length = k ∧
    s.threads[3]? = some ⟨4, 1, .waiting false, true⟩ ∧ 3 < k

/-- A woman is inside while 100 men fill the queue and a further man, whose
`enqueue` stores nothing, suspends; then she leaves and broadcasts. -/
def droppedWaitTrace : List Event :=
  [.arrive 0 0 2] ++ (List.range 100).map (fun i => Event.arrive 1 ((i : Int) + 1) 1) ++
    [.arrive 3 101 1, .leave 4 0]

set_option maxRecDepth 100000

/-! ## Ring buffer lemmas -/

theorem tmod_cap {a : Int} (h : 0 ≤ a) : a.tmod MAX_QUEUE_SIZE = a % 100 := by
  rw [MAX_QUEUE_SIZE, Int.tmod_eq_emod h (by decide)]

theorem enqueue_of_full (id g : Int) (s : State) (h : ¬ s.queue_size < MAX_QUEUE_SIZE) :
    enqueue id g s = s := by
  simp [enqueue, h]

theorem QueueWF_init (t0 : Int) : QueueWF (State.init t0) := by
  simp [QueueWF, State.init, MAX_QUEUE_SIZE]

theorem QueueWF_enqueue (id g : Int) (s : State) (h : QueueWF s) : QueueWF (enqueue id g s) := by
  unfold enqueue
  split
  · rename_i hlt
    obtain ⟨h1, h2, h3, h4⟩ := h
    refine ⟨h1, h2, ?_, ?_⟩ <;> simp only [MAX_QUEUE_SIZE] at * <;> omega
  · exact h

theorem QueueWF_dequeue (s : State) (h : QueueWF s) : QueueWF (dequeue s).2 := by
  unfold dequeue
  split
  · rename_i hlt
    obtain ⟨h1, h2, h3, h4⟩ := h
    have h5 : (s.queue_front + 1).tmod MAX_QUEUE_SIZE = (s.queue_front + 1) % 100 :=
      tmod_cap (by omega)
    refine ⟨?_, ?_, ?_, ?_⟩ <;> simp only [h5] <;> simp only [MAX_QUEUE_SIZE] at * <;> omega
  · exact h

theorem dequeue_fst (s : State) : (dequeue s).1 = front_of_queue s := by
  unfold dequeue front_of_queue
  split <;> rfl

theorem contents_enqueue (id g : Int) (s : State) (h : QueueWF s)
    (hlt : s.queue_size < MAX_QUEUE_SIZE) :
    contents (enqueue id g s) = contents s ++ [⟨id, g⟩] := by
  obtain ⟨h1, h2, h3, h4⟩ := h
  simp only [MAX_QUEUE_SIZE] at h2 h4 hlt
  have hn : (s.queue_size + 1).toNat = s.queue_size.toNat + 1 := by omega
  simp only [enqueue, if_pos (show s.queue_size < MAX_QUEUE_SIZE from hlt), contents, hn,
    List.range_succ, List.map_append, List.map_cons, List.map_nil]
  congr 1
  · apply List.map_congr_left
    intro k hk
    have hk' : k < s.queue_size.toNat := List.mem_range.mp hk
    have e1 := tmod_cap (a := s.queue_front + (k : Int)) (by omega)
    have e2 := tmod_cap (a := s.queue_front + s.queue_size) (by omega)
    simp only [readSlot, writeSlot, e1, e2]
    rw [if_neg]
    omega
  · have e2 := tmod_cap (a := s.queue_front + s.queue_size) (by omega)
    have e3 : ((s.queue_size.toNat : Nat) : Int) = s.queue_size := by omega
    simp [readSlot, writeSlot, e3]

theorem contents_dequeue (s : State) (h : QueueWF s) (hpos : 0 < s.queue_size) :
    contents s = front_of_queue s :: contents (dequeue s).2 := by
  obtain ⟨h1, h2, h3, h4⟩ := h
  simp only [MAX_QUEUE_SIZE] at h2 h4
  obtain ⟨m, hm⟩ : ∃ m : Nat, s.queue_size.toNat = m + 1 :=
    ⟨s.queue_size.toNat - 1, by omega⟩
  have hm' : (s.queue_size - 1).toNat = m := by omega
  have e0 := tmod_cap (a := s.queue_front + ((0 : Nat) : Int)) (by omega)
  have e1 := tmod_cap (a := s.queue_front + 1) (by omega)
  simp only [contents, dequeue, front_of_queue, if_pos (show s.queue_size > 0 from hpos), hm, hm',
    List.range_succ_eq_map, List.map_cons, List.map_map]
  congr 1
  · rw [e0]
    congr 1
    omega
  · apply List.map_congr_left
    intro k _
    have e2 := tmod_cap (a := s.queue_front + ((k.succ : Nat) : Int)) (by omega)
    have e3 := tmod_cap (a := (s.queue_front + 1) % 100 + (k : Int)) (by omega)
    simp only [Function.comp, e1, e2, e3]
    congr 1
    omega

/-! ## The loop guard and the admission code -/

theorem wait_condition_false_iff (g : Int) (hg : g = 1 ∨ g = 2) (s : State) :
    wait_condition g s = false ↔
      oppositeCount g s ≤ 0 ∧ count g s < MAX_CAPACITY ∧ (front_of_queue s).gender = g := by
  rcases hg with rfl | rfl <;> simp [wait_condition, oppositeCount, count, and_assoc]

theorem queue_nonempty_of_front (s : State) (h : (front_of_queue s).gender ≠ 0) :
    0 < s.queue_size := by
  unfold front_of_queue at h
  split at h
  · assumption
  · exact absurd rfl h

theorem entry_fst (g : Int) (s : State) : (enter_bathroom_entry g s).1 = front_of_queue s := by
  unfold enter_bathroom_entry
  split <;> exact dequeue_fst s

theorem entry_men (g : Int) (s : State) :
    (enter_bathroom_entry g s).2.men_in_bathroom =
      s.men_in_bathroom + (if g = 1 then 1 else 0) := by
  unfold enter_bathroom_entry dequeue
  split <;> split <;> simp

theorem entry_women (g : Int) (s : State) :
    (enter_bathroom_entry g s).2.women_in_bathroom =
      s.women_in_bathroom + (if g = 1 then 0 else 1) := by
  unfold enter_bathroom_entry dequeue
  split <;> split <;> simp

theorem entry_last_exit_time (g : Int) (s : State) :
    (enter_bathroom_entry g s).2.last_exit_time = s.last_exit_time := by
  unfold enter_bathroom_entry dequeue
  split <;> split <;> rfl

theorem entry_waiting_queue (g : Int) (s : State) :
    (enter_bathroom_entry g s).2.waiting_queue = s.waiting_queue := by
  unfold enter_bathroom_entry dequeue
  split <;> split <;> rfl

theorem entry_queue (g : Int) (s : State) :
    (enter_bathroom_entry g s).2.queue_front = (dequeue s).2.queue_front ∧
      (enter_bathroom_entry g s).2.queue_size = (dequeue s).2.queue_size := by
  unfold enter_bathroom_entry
  split <;> exact ⟨rfl, rfl⟩

theorem contents_congr (s s1 : State) (h1 : s1.waiting_queue = s.waiting_queue)
    (h2 : s1.queue_front = s.queue_front) (h3 : s1.queue_size = s.queue_size) :
    contents s1 = contents s := by
  simp only [contents, h1, h2, h3]

theorem QueueWF_congr (s s1 : State) (h2 : s1.queue_front = s.queue_front)
    (h3 : s1.queue_size = s.queue_size) (h : QueueWF s) : QueueWF s1 := by
  simpa only [QueueWF, h2, h3] using h

theorem dequeue_waiting_queue (s : State) : (dequeue s).2.waiting_queue = s.waiting_queue := by
  unfold dequeue
  split <;> rfl

theorem contents_entry (g : Int) (s : State) (h : QueueWF s) (hpos : 0 < s.queue_size) :
    contents s = front_of_queue s :: contents (enter_bathroom_entry g s).2 := by
  rw [contents_dequeue s h hpos]
  congr 1
  exact (contents_congr _ _ ((entry_waiting_queue g s).trans (dequeue_waiting_queue s).symm)
    (entry_queue g s).1 (entry_queue g s).2).symm

theorem QueueWF_entry (g : Int) (s : State) (h : QueueWF s) :
    QueueWF (enter_bathroom_entry g s).2 :=
  QueueWF_congr _ _ (entry_queue g s).1 (entry_queue g s).2 (QueueWF_dequeue s h)

theorem enqueue_men (id g : Int) (s : State) :
    (enqueue id g s).men_in_bathroom = s.men_in_bathroom := by
  unfold enqueue
  split <;> rfl

theorem enqueue_women (id g : Int) (s : State) :
    (enqueue id g s).women_in_bathroom = s.women_in_bathroom := by
  unfold enqueue
  split <;> rfl

theorem contents_enqueue_cases (id g : Int) (s : State) (h : QueueWF s) :
    contents (enqueue id g s) =
      contents s ++ (if s.queue_size < MAX_QUEUE_SIZE then [⟨id, g⟩] else []) := by
  by_cases hlt : s.queue_size < MAX_QUEUE_SIZE
  · rw [contents_enqueue id g s h hlt, if_pos hlt]
  · rw [enqueue_of_full id g s hlt, if_neg hlt, List.append_nil]

theorem leave_men (g now : Int) (s : State) :
    (leave_bathroom g now s).1.men_in_bathroom =
      s.men_in_bathroom - (if g = 1 then 1 else 0) := by
  unfold leave_bathroom
  by_cases hg : g = 1 <;> simp only [hg, if_true, if_false] <;> split <;> simp

theorem leave_women (g now : Int) (s : State) :
    (leave_bathroom g now s).1.women_in_bathroom =
      s.women_in_bathroom - (if g = 1 then 0 else 1) := by
  unfold leave_bathroom
  by_cases hg : g = 1 <;> simp only [hg, if_true, if_false] <;> split <;> simp

theorem leave_queue (g now : Int) (s : State) :
    (leave_bathroom g now s).1.waiting_queue = s.waiting_queue ∧
      (leave_bathroom g now s).1.queue_front = s.queue_front ∧
      (leave_bathroom g now s).1.queue_size = s.queue_size := by
  unfold leave_bathroom
  by_cases hg : g = 1 <;> simp only [hg, if_true, if_false] <;> split <;> exact ⟨rfl, rfl, rfl⟩

/-! ## Thread list lemmas -/

theorem insideCount_nil (g : Int) : insideCount g [] = 0 := rfl

theorem insideCount_cons (g : Int) (a : Thread) (l : List Thread) :
    insideCount g (a :: l) = insideCount g l + insideInd g a := by
  simp only [insideCount, List.countP_cons, insideInd, Bool.and_eq_true, decide_eq_true_eq]

theorem insideCount_append (g : Int) (l : List Thread) (a : Thread) :
    insideCount g (l ++ [a]) = insideCount g l + insideInd g a := by
  induction l with
  | nil => simp [insideCount_cons, insideCount_nil]
  | cons b l ih => simp only [List.cons_append, insideCount_cons, ih]; omega

theorem insideCount_set (g : Int) (l : List Thread) (t : Nat) (th th1 : Thread)
    (h : l[t]? = some th) :
    insideCount g (l.set t th1) + insideInd g th = insideCount g l + insideInd g th1 := by
  induction l generalizing t with
  | nil => simp at h
  | cons b l ih =>
    cases t with
    | zero =>
      simp only [List.getElem?_cons_zero, Option.some.injEq] at h
      subst h
      simp only [List.set_cons_zero, insideCount_cons]
      omega
    | succ t =>
      simp only [List.getElem?_cons_succ] at h
      have := ih t h
      simp only [List.set_cons_succ, insideCount_cons]
      omega

theorem signal_gender (th : Thread) : th.signal.gender = th.gender := by
  unfold Thread.signal
  split <;> rfl

theorem signal_id (th : Thread) : th.signal.id = th.id := by
  unfold Thread.signal
  split <;> rfl

theorem signal_stored (th : Thread) : th.signal.stored = th.stored := by
  unfold Thread.signal
  split <;> rfl

theorem signal_inside (th : Thread) : th.signal.phase = .inside ↔ th.phase = .inside := by
  unfold Thread.signal
  split
  · rename_i h; simp [h]
  · rfl

theorem insideInd_signal (g : Int) (th : Thread) : insideInd g th.signal = insideInd g th := by
  simp only [insideInd, signal_gender, signal_inside]

theorem insideCount_signal (g : Int) (l : List Thread) :
    insideCount g (l.map Thread.signal) = insideCount g l := by
  induction l with
  | nil => rfl
  | cons b l ih => simp only [List.map_cons, insideCount_cons, ih, insideInd_signal]

theorem storedEntries_cons (a : Thread) (l : List Thread) :
    storedEntries (a :: l) =
      (if a.stored then [(⟨a.id, a.gender⟩ : Person)] else []) ++ storedEntries l := by
  unfold storedEntries
  by_cases h : a.stored = true <;> simp [List.filter_cons, h]

theorem storedEntries_append (l : List Thread) (a : Thread) :
    storedEntries (l ++ [a]) =
      storedEntries l ++ (if a.stored then [(⟨a.id, a.gender⟩ : Person)] else []) := by
  induction l with
  | nil => by_cases h : a.stored = true <;> simp [storedEntries, List.filter_cons, h]
  | cons b l ih => simp only [List.cons_append, storedEntries_cons, ih, List.append_assoc]

theorem storedEntries_set (l : List Thread) (t : Nat) (th th1 : Thread)
    (h : l[t]? = some th) (h1 : th1.id = th.id) (h2 : th1.gender = th.gender)
    (h3 : th1.stored = th.stored) :
    storedEntries (l.set t th1) = storedEntries l := by
  induction l generalizing t with
  | nil => simp at h
  | cons b l ih =>
    cases t with
    | zero =>
      simp only [List.getElem?_cons_zero, Option.some.injEq] at h
      subst h
      simp only [List.set_cons_zero, storedEntries_cons, h1, h2, h3]
    | succ t =>
      simp only [List.getElem?_cons_succ] at h
      simp only [List.set_cons_succ, storedEntries_cons, ih t h]

theorem storedEntries_signal (l : List Thread) :
    storedEntries (l.map Thread.signal) = storedEntries l := by
  induction l with
  | nil => rfl
  | cons b l ih =>
    simp only [List.map_cons, storedEntries_cons, ih, signal_id, signal_gender, signal_stored]

theorem genderAt_append (l : List Thread) (a : Thread) (t : Nat) (g : Int)
    (h : genderAt l t = some g) : genderAt (l ++ [a]) t = some g := by
  unfold genderAt at *
  have hlt : t < l.length := by
    by_contra hge
    rw [List.getElem?_eq_none (by omega)] at h
    simp at h
  rw [List.getElem?_append_left hlt]
  exact h

theorem genderAt_length (l : List Thread) (a : Thread) :
    genderAt (l ++ [a]) l.length = some a.gender := by
  simp [genderAt]

theorem genderAt_set (l : List Thread) (t : Nat) (th th1 : Thread) (h : l[t]? = some th)
    (h2 : th1.gender = th.gender) (i : Nat) : genderAt (l.set t th1) i = genderAt l i := by
  unfold genderAt
  rw [List.getElem?_set]
  split
  · rename_i hti
    subst hti
    have hlt : t < l.length := by
      by_contra hge
      rw [List.getElem?_eq_none (by omega)] at h
      simp at h
    simp [hlt, h, h2]
  · rfl

theorem genderAt_signal (l : List Thread) (i : Nat) :
    genderAt (l.map Thread.signal) i = genderAt l i := by
  unfold genderAt
  rw [List.getElem?_map]
  cases l[i]? with
  | none => rfl
  | some th => simp [signal_gender]

theorem mem_of_getElem? (l : List Thread) (t : Nat) (th : Thread) (h : l[t]? = some th) :
    th ∈ l := by
  rw [List.getElem?_eq_some] at h
  obtain ⟨hlt, rfl⟩ := h
  exact List.getElem_mem hlt

/-! ## The invariant of the executions -/

theorem Inv_init (t0 : Int) : Inv (Sys.init t0) := by
  refine ⟨QueueWF_init t0, rfl, rfl, Or.inl rfl, ?_, ?_, ?_, rfl, ?_⟩
  · simp [Sys.init, State.init, MAX_CAPACITY]
  · simp [Sys.init, State.init, MAX_CAPACITY]
  · intro th h; simp [Sys.init] at h
  · intro a h; simp [Sys.init] at h

theorem entry_facts (g : Int) (hg : g = 1 ∨ g = 2) (st : State) (hwf : QueueWF st)
    (hm : 0 ≤ st.men_in_bathroom) (hw : 0 ≤ st.women_in_bathroom)
    (hc : wait_condition g st = false) :
    QueueWF (enter_bathroom_entry g st).2 ∧
      ((enter_bathroom_entry g st).2.men_in_bathroom = 0 ∨
        (enter_bathroom_entry g st).2.women_in_bathroom = 0) ∧
      (enter_bathroom_entry g st).2.men_in_bathroom ≤ MAX_CAPACITY ∧
      (enter_bathroom_entry g st).2.women_in_bathroom ≤ MAX_CAPACITY ∧
      contents st = (enter_bathroom_entry g st).1 :: contents (enter_bathroom_entry g st).2 ∧
      (enter_bathroom_entry g st).1.gender = g := by
  obtain ⟨h1, h2, h3⟩ := (wait_condition_false_iff g hg st).mp hc
  have hpos : 0 < st.queue_size := by
    apply queue_nonempty_of_front
    rw [h3]
    rcases hg with rfl | rfl <;> decide
  refine ⟨QueueWF_entry g st hwf, ?_, ?_, ?_, ?_, ?_⟩
  · rw [entry_men, entry_women]
    rcases hg with rfl | rfl <;> simp [oppositeCount, count, MAX_CAPACITY] at * <;> omega
  · rw [entry_men]
    rcases hg with rfl | rfl <;> simp [oppositeCount, count, MAX_CAPACITY] at * <;> omega
  · rw [entry_women]
    rcases hg with rfl | rfl <;> simp [oppositeCount, count, MAX_CAPACITY] at * <;> omega
  · rw [entry_fst]
    exact contents_entry g st hwf hpos
  · rw [entry_fst]
    exact h3

theorem insideInd_one_two (th : Thread) (hg : th.gender = 1 ∨ th.gender = 2)
    (hp : th.phase = .inside) :
    ((insideInd 1 th : Nat) : Int) = (if th.gender = 1 then 1 else 0) ∧
      ((insideInd 2 th : Nat) : Int) = (if th.gender = 1 then 0 else 1) := by
  rcases hg with h | h <;> simp [insideInd, hp, h]

theorem insideInd_not_inside (g : Int) (th : Thread) (hp : th.phase ≠ .inside) :
    insideInd g th = 0 := by
  simp [insideInd, hp]

theorem Inv_nonneg {s : Sys} (h : Inv s) :
    0 ≤ s.st.men_in_bathroom ∧ 0 ≤ s.st.women_in_bathroom := by
  rw [h.men, h.women]
  exact ⟨Int.natCast_nonneg _, Int.natCast_nonneg _⟩

theorem Inv_arrive (sp : Bool) (s s1 : Sys) (now id g : Int) (hg : g = 1 ∨ g = 2)
    (h : Inv s) (hs : step sp s (.arrive now id g) = some s1) : Inv s1 := by
  obtain ⟨hm0, hw0⟩ := Inv_nonneg h
  have hwf1 := QueueWF_enqueue id g s.st h.wf
  have hc1 := contents_enqueue_cases id g s.st h.wf
  cases hc : wait_condition g (enqueue id g s.st)
  · -- admitted at once
    simp only [step, enter_bathroom, enter_bathroom_resume, hc, Bool.false_eq_true, if_false,
      Option.some.injEq] at hs
    subst hs
    obtain ⟨f1, f2, f3, f4, f5, f6⟩ := entry_facts g hg (enqueue id g s.st) hwf1
      (by rw [enqueue_men]; exact hm0) (by rw [enqueue_women]; exact hw0) hc
    have hi := insideInd_one_two ⟨id, g, .inside, decide (s.st.queue_size < MAX_QUEUE_SIZE)⟩
      hg rfl
    refine ⟨f1, ?_, ?_, f2, f3, f4, ?_, ?_, ?_⟩
    · simp only [entry_men, enqueue_men, insideCount_append, h.men, Nat.cast_add, hi.1]
    · simp only [entry_women, enqueue_women, insideCount_append, h.women, Nat.cast_add, hi.2]
    · intro th hth
      rcases List.mem_append.mp hth with hth | hth
      · exact h.genders th hth
      · simp only [List.mem_singleton] at hth
        subst hth
        exact hg
    · simp only [removedEntries, List.map_append, List.map_cons, List.map_nil,
        storedEntries_append, decide_eq_true_eq]
      have := h.fifo
      simp only [removedEntries] at this
      rw [this, List.append_assoc, List.append_assoc, ← hc1, f5]
      rfl
    · intro a ha
      rcases List.mem_append.mp ha with ha | ha
      · exact genderAt_append _ _ _ _ (h.adm a ha)
      · simp only [List.mem_singleton] at ha
        subst ha
        simp only [genderAt_length, f6]
  · -- suspended
    simp only [step, enter_bathroom, enter_bathroom_resume, hc, if_true,
      Option.some.injEq] at hs
    subst hs
    have hi1 := insideInd_not_inside 1
      ⟨id, g, .waiting false, decide (s.st.queue_size < MAX_QUEUE_SIZE)⟩ (by simp)
    have hi2 := insideInd_not_inside 2
      ⟨id, g, .waiting false, decide (s.st.queue_size < MAX_QUEUE_SIZE)⟩ (by simp)
    refine ⟨hwf1, ?_, ?_, ?_, ?_, ?_, ?_, ?_, ?_⟩
    · simp only [enqueue_men, insideCount_append, h.men, hi1, Nat.add_zero]
    · simp only [enqueue_women, insideCount_append, h.women, hi2, Nat.add_zero]
    · simp only [enqueue_men, enqueue_women]; exact h.excl
    · simp only [enqueue_men]; exact h.capM
    · simp only [enqueue_women]; exact h.capW
    · intro th hth
      rcases List.mem_append.mp hth with hth | hth
      · exact h.genders th hth
      · simp only [List.mem_singleton] at hth
        subst hth
        exact hg
    · simp only [storedEntries_append, decide_eq_true_eq, removedEntries]
      have := h.fifo
      simp only [removedEntries] at this
      rw [this, List.append_assoc, ← hc1]
    · intro a ha
      exact genderAt_append _ _ _ _ (h.adm a ha)

theorem Inv_wake (sp : Bool) (s s1 : Sys) (now : Int) (t : Nat)
    (h : Inv s) (hs : step sp s (.wake now t) = some s1) : Inv s1 := by
  obtain ⟨hm0, hw0⟩ := Inv_nonneg h
  simp only [step] at hs
  cases hth : s.threads[t]? with
  | none => simp [hth] at hs
  | some th =>
    simp only [hth] at hs
    have hg : th.gender = 1 ∨ th.gender = 2 := h.genders th (mem_of_getElem? _ _ _ hth)
    cases hph : th.phase with
    | inside => simp [hph] at hs
    | done => simp [hph] at hs
    | waiting sig =>
      simp only [hph] at hs
      by_cases hrun : (sp || sig) = true
      · simp only [hrun, if_true] at hs
        have hold1 := insideInd_not_inside 1 th (by simp [hph])
        have hold2 := insideInd_not_inside 2 th (by simp [hph])
        cases hc : wait_condition th.gender s.st
        · simp only [enter_bathroom_resume, hc, Bool.false_eq_true, if_false,
            Option.some.injEq] at hs
          subst hs
          obtain ⟨f1, f2, f3, f4, f5, f6⟩ := entry_facts th.gender hg s.st h.wf hm0 hw0 hc
          have hi := insideInd_one_two { th with phase := .inside } hg rfl
          have c1 := insideCount_set 1 s.threads t th { th with phase := .inside } hth
          have c2 := insideCount_set 2 s.threads t th { th with phase := .inside } hth
          rw [hold1] at c1
          rw [hold2] at c2
          refine ⟨f1, ?_, ?_, f2, f3, f4, ?_, ?_, ?_⟩
          · simp only [entry_men, h.men]
            have := hi.1
            simp only at this
            omega
          · simp only [entry_women, h.women]
            have := hi.2
            simp only at this
            omega
          · intro x hx
            rcases List.mem_or_eq_of_mem_set hx with hx | hx
            · exact h.genders x hx
            · subst hx; exact hg
          · simp only [removedEntries, List.map_append, List.map_cons, List.map_nil]
            rw [storedEntries_set _ _ th { th with phase := .inside } hth rfl rfl rfl]
            have := h.fifo
            simp only [removedEntries] at this
            rw [this, List.append_assoc, f5]
            rfl
          · intro a ha
            dsimp only at ha ⊢
            rw [genderAt_set _ _ th { th with phase := .inside } hth rfl]
            rcases List.mem_append.mp ha with ha | ha
            · exact h.adm a ha
            · simp only [List.mem_singleton] at ha
              subst ha
              simp only [genderAt, hth, Option.map_some', f6]
        · simp only [enter_bathroom_resume, hc, if_true, Option.some.injEq] at hs
          subst hs
          have hnew1 := insideInd_not_inside 1 { th with phase := .waiting false } (by simp)
          have hnew2 := insideInd_not_inside 2 { th with phase := .waiting false } (by simp)
          have c1 := insideCount_set 1 s.threads t th { th with phase := .waiting false } hth
          have c2 := insideCount_set 2 s.threads t th { th with phase := .waiting false } hth
          rw [hold1, hnew1] at c1
          rw [hold2, hnew2] at c2
          refine ⟨h.wf, ?_, ?_, h.excl, h.capM, h.capW, ?_, ?_, ?_⟩
          · simp only [h.men]; omega
          · simp only [h.women]; omega
          · intro x hx
            rcases List.mem_or_eq_of_mem_set hx with hx | hx
            · exact h.genders x hx
            · subst hx; exact hg
          · simp only [removedEntries]
            rw [storedEntries_set _ _ th { th with phase := .waiting false } hth rfl rfl rfl]
            exact h.fifo
          · intro a ha
            dsimp only at ha ⊢
            rw [genderAt_set _ _ th { th with phase := .waiting false } hth rfl]
            exact h.adm a ha
      · simp [hrun] at hs

theorem Inv_leave (sp : Bool) (s s1 : Sys) (now : Int) (t : Nat)
    (h : Inv s) (hs : step sp s (.leave now t) = some s1) : Inv s1 := by
  simp only [step] at hs
  cases hth : s.threads[t]? with
  | none => simp [hth] at hs
  | some th =>
    simp only [hth] at hs
    have hg : th.gender = 1 ∨ th.gender = 2 := h.genders th (mem_of_getElem? _ _ _ hth)
    by_cases hph : th.phase = .inside
    · simp only [hph, if_true, Option.some.injEq] at hs
      subst hs
      have hi := insideInd_one_two th hg hph
      have hnew1 := insideInd_not_inside 1 { th with phase := .done } (by simp)
      have hnew2 := insideInd_not_inside 2 { th with phase := .done } (by simp)
      have c1 := insideCount_set 1 s.threads t th { th with phase := .done } hth
      have c2 := insideCount_set 2 s.threads t th { th with phase := .done } hth
      rw [hnew1] at c1
      rw [hnew2] at c2
      obtain ⟨q1, q2, q3⟩ := leave_queue th.gender now s.st
      have hmen : (leave_bathroom th.gender now s.st).1.men_in_bathroom =
          insideCount 1 (s.threads.set t { th with phase := .done }) := by
        rw [leave_men, h.men]
        have := hi.1
        omega
      have hwomen : (leave_bathroom th.gender now s.st).1.women_in_bathroom =
          insideCount 2 (s.threads.set t { th with phase := .done }) := by
        rw [leave_women, h.women]
        have := hi.2
        omega
      have hm' := h.men
      have hw' := h.women
      have hgend : ∀ x ∈ s.threads.set t { th with phase := .done },
          x.gender = 1 ∨ x.gender = 2 := by
        intro x hx
        rcases List.mem_or_eq_of_mem_set hx with hx | hx
        · exact h.genders x hx
        · subst hx; exact hg
      refine ⟨QueueWF_congr _ _ q2 q3 h.wf, ?_, ?_, ?_, ?_, ?_, ?_, ?_, ?_⟩
      · split
        · rw [insideCount_signal]; exact hmen
        · exact hmen
      · split
        · rw [insideCount_signal]; exact hwomen
        · exact hwomen
      · rw [hmen, hwomen]
        rcases h.excl with e | e
        · left; omega
        · right; omega
      · rw [hmen]
        have := h.capM
        omega
      · rw [hwomen]
        have := h.capW
        omega
      · split
        · intro x hx
          obtain ⟨y, hy, rfl⟩ := List.mem_map.mp hx
          rw [signal_gender]
          exact hgend y hy
        · exact hgend
      · have e1 : storedEntries (s.threads.set t { th with phase := .done }) =
            storedEntries s.threads :=
          storedEntries_set _ _ th { th with phase := .done } hth rfl rfl rfl
        have e2 := contents_congr _ _ q1 q2 q3
        simp only [removedEntries] at *
        split
        · rw [storedEntries_signal, e1, e2]; exact h.fifo
        · rw [e1, e2]; exact h.fifo
      · intro a ha
        have := h.adm a ha
        dsimp only
        split
        · rw [genderAt_signal, genderAt_set _ _ th { th with phase := .done } hth rfl]; exact this
        · rw [genderAt_set _ _ th { th with phase := .done } hth rfl]; exact this
    · simp [hph] at hs

theorem Inv_step (sp : Bool) (s s1 : Sys) (e : Event) (hv : e.valid) (h : Inv s)
    (hs : step sp s e = some s1) : Inv s1 := by
  cases e with
  | arrive now id g => exact Inv_arrive sp s s1 now id g hv h hs
  | wake now t => exact Inv_wake sp s s1 now t h hs
  | leave now t => exact Inv_leave sp s s1 now t h hs

theorem Inv_run (sp : Bool) (es : List Event) :
    ∀ (s s1 : Sys), (∀ e ∈ es, e.valid) → Inv s → run sp s es = some s1 → Inv s1 := by
  induction es with
  | nil =>
    intro s s1 _ h hs
    simp only [run, Option.some.injEq] at hs
    subst hs
    exact h
  | cons e es ih =>
    intro s s1 hv h hs
    simp only [run] at hs
    cases hstep : step sp s e with
    | none => simp [hstep] at hs
    | some s2 =>
      simp only [hstep, Option.some_bind] at hs
      exact ih s2 s1 (fun x hx => hv x (List.mem_cons_of_mem _ hx))
        (Inv_step sp s s2 e (hv e (List.mem_cons_self _ _)) h hstep) hs

theorem Inv_reachable (sp : Bool) (t0 : Int) (s : Sys) (h : Reachable sp t0 s) : Inv s := by
  obtain ⟨es, hv, hr⟩ := h
  exact Inv_run sp es _ _ hv (Inv_init t0) hr

theorem reachable_afterTrace (sp : Bool) (t0 : Int) (es : List Event)
    (hv : ∀ e ∈ es, e.valid) (hs : (run sp (Sys.init t0) es).isSome = true) :
    Reachable sp t0 (afterTrace sp t0 es) := by
  refine ⟨es, hv, ?_⟩
  unfold afterTrace
  cases h : run sp (Sys.init t0) es with
  | none => simp [h] at hs
  | some s => rfl

/-! ## The claims -/

/-- C1 (mutual exclusion): in every state reachable from program start by
`enter_bathroom` calls with category 1 or 2 and by `leave_bathroom` calls of
admitted requesters, `men_in_bathroom` is 0 or `women_in_bathroom` is 0.  It
holds with and without spurious wake-ups. -/
theorem mutual_exclusion (spurious : Bool) (t0 : Int) (s : Sys)
    (h : Reachable spurious t0 s) :
    s.st.men_in_bathroom = 0 ∨ s.st.women_in_bathroom = 0 :=
  (Inv_reachable spurious t0 s h).excl

/-- Witness of C1: the state after A1, A2, A3, A4 and B1 have arrived. -/
theorem mutual_exclusion_witness :
    Reachable false 0 (afterTrace false 0 (capacityScenario.take 5)) ∧
      (afterTrace false 0 (capacityScenario.take 5)).st.men_in_bathroom = 3 ∧
      ((afterTrace false 0 (capacityScenario.take 5)).st.men_in_bathroom = 0 ∨
        (afterTrace false 0 (capacityScenario.take 5)).st.women_in_bathroom = 0) :=
  ⟨reachable_afterTrace false 0 _ (by decide) (by decide), by decide,
    mutual_exclusion false 0 _ (reachable_afterTrace false 0 _ (by decide) (by decide))⟩

/-- C2 (capacity bound): in every state reachable from program start by
`enter_bathroom` calls with category 1 or 2 and by matching `leave_bathroom`
calls, both counters are at most `MAX_CAPACITY`, which is 3. -/
theorem capacity_bound (spurious : Bool) (t0 : Int) (s : Sys)
    (h : Reachable spurious t0 s) :
    MAX_CAPACITY = 3 ∧ s.st.men_in_bathroom ≤ MAX_CAPACITY ∧
      s.st.women_in_bathroom ≤ MAX_CAPACITY :=
  ⟨rfl, (Inv_reachable spurious t0 s h).capM, (Inv_reachable spurious t0 s h).capW⟩

/-- Witness of C2: the state after A1, A2 and A3 were admitted and A4 arrived. -/
theorem capacity_bound_witness :
    Reachable true 0 (afterTrace true 0 (capacityScenario.take 4)) ∧
      (afterTrace true 0 (capacityScenario.take 4)).st.men_in_bathroom = 3 ∧
      (MAX_CAPACITY = 3 ∧
        (afterTrace true 0 (capacityScenario.take 4)).st.men_in_bathroom ≤ MAX_CAPACITY ∧
        (afterTrace true 0 (capacityScenario.take 4)).st.women_in_bathroom ≤ MAX_CAPACITY) :=
  ⟨reachable_afterTrace true 0 _ (by decide) (by decide), by decide,
    capacity_bound true 0 _ (reachable_afterTrace true 0 _ (by decide) (by decide))⟩

/-- C3, as stated, fails: `leave_bathroom(2)` at program start leaves
`women_in_bathroom` at -1; a man who then stands at the head of the queue
leaves the wait loop, because line 63 tests `women_in_bathroom > 0`, although
the counter of the opposite category is not 0. -/
theorem entry_predicate_counterexample :
    (enqueue 7 1 (leave_bathroom 2 5 (State.init 0)).1).women_in_bathroom = -1 ∧
      oppositeCount 1 (enqueue 7 1 (leave_bathroom 2 5 (State.init 0)).1) = -1 ∧
      count 1 (enqueue 7 1 (leave_bathroom 2 5 (State.init 0)).1) = 0 ∧
      front_of_queue (enqueue 7 1 (leave_bathroom 2 5 (State.init 0)).1) = ⟨7, 1⟩ ∧
      (enter_bathroom_resume 1 (enqueue 7 1 (leave_bathroom 2 5 (State.init 0)).1)).isAdmitted =
        true ∧
      ¬ ((enter_bathroom_resume 1 (enqueue 7 1 (leave_bathroom 2 5 (State.init 0)).1)).isAdmitted =
          true ↔
        oppositeCount 1 (enqueue 7 1 (leave_bathroom 2 5 (State.init 0)).1) = 0 ∧
          count 1 (enqueue 7 1 (leave_bathroom 2 5 (State.init 0)).1) < MAX_CAPACITY ∧
          (front_of_queue (enqueue 7 1 (leave_bathroom 2 5 (State.init 0)).1)).gender = 1) := by
  refine ⟨?_, ?_, ?_, ?_, ?_, ?_⟩ <;> decide

/-- C3, amended (entry predicate): in every state, a requester of category `g` in
{1, 2} leaves the wait loop exactly when the counter of the opposite category
is not positive, its own counter is below `MAX_CAPACITY` and the category of
the queue head is `g`; when the opposite counter is not negative, "not
positive" is "equal to 0".  The admission takes one from `queue_size`, moves
`queue_front` on by one slot, adds one to the counter of `g` and leaves the
other counter, the array and `last_exit_time` as they were; on a well-formed
ring buffer the logical contents lose their head. -/
theorem entry_predicate_amended (g : Int) (s : State) (hg : g = 1 ∨ g = 2) :
    ((enter_bathroom_resume g s).isAdmitted = true ↔
        oppositeCount g s ≤ 0 ∧ count g s < MAX_CAPACITY ∧ (front_of_queue s).gender = g) ∧
      (0 ≤ oppositeCount g s →
        ((enter_bathroom_resume g s).isAdmitted = true ↔
          oppositeCount g s = 0 ∧ count g s < MAX_CAPACITY ∧
            (front_of_queue s).gender = g)) ∧
      ((enter_bathroom_resume g s).isAdmitted = true →
        0 < s.queue_size ∧
          (enter_bathroom_resume g s).state.queue_size = s.queue_size - 1 ∧
          (enter_bathroom_resume g s).state.queue_front =
            (s.queue_front + 1).tmod MAX_QUEUE_SIZE ∧
          count g (enter_bathroom_resume g s).state = count g s + 1 ∧
          oppositeCount g (enter_bathroom_resume g s).state = oppositeCount g s ∧
          (enter_bathroom_resume g s).state.waiting_queue = s.waiting_queue ∧
          (enter_bathroom_resume g s).state.last_exit_time = s.last_exit_time ∧
          (QueueWF s →
            contents s = front_of_queue s :: contents (enter_bathroom_resume g s).state)) := by
  have hiff := wait_condition_false_iff g hg s
  have hadm : (enter_bathroom_resume g s).isAdmitted = true ↔ wait_condition g s = false := by
    cases hc : wait_condition g s <;>
      simp [enter_bathroom_resume, hc, Outcome.isAdmitted]
  refine ⟨hadm.trans hiff, fun hopp => ?_, fun ha => ?_⟩
  · rw [hadm, hiff]
    constructor
    · rintro ⟨h1, h2, h3⟩
      exact ⟨by omega, h2, h3⟩
    · rintro ⟨h1, h2, h3⟩
      exact ⟨by omega, h2, h3⟩
  · have hc := hadm.mp ha
    have h3 := hiff.mp hc
    have hpos : 0 < s.queue_size := by
      apply queue_nonempty_of_front
      rw [h3.2.2]
      rcases hg with rfl | rfl <;> decide
    have hst : (enter_bathroom_resume g s).state = (enter_bathroom_entry g s).2 := by
      simp [enter_bathroom_resume, hc, Outcome.state]
    rw [hst]
    refine ⟨hpos, ?_, ?_, ?_, ?_, entry_waiting_queue g s, entry_last_exit_time g s,
      fun hwf => contents_entry g s hwf hpos⟩
    · rw [(entry_queue g s).2]
      simp [dequeue, hpos]
    · rw [(entry_queue g s).1]
      simp [dequeue, hpos]
    · rcases hg with rfl | rfl <;> simp [count, entry_men, entry_women]
    · rcases hg with rfl | rfl <;> simp [oppositeCount, entry_men, entry_women]

/-- Witness of the amended C3: a man at the head of the queue of the start state. -/
theorem entry_predicate_amended_witness :
    QueueWF (enqueue 7 1 (State.init 0)) ∧ 0 ≤ oppositeCount 1 (enqueue 7 1 (State.init 0)) ∧
      (enter_bathroom_resume 1 (enqueue 7 1 (State.init 0))).isAdmitted = true ∧
      count 1 (enter_bathroom_resume 1 (enqueue 7 1 (State.init 0))).state =
        count 1 (enqueue 7 1 (State.init 0)) + 1 ∧
      contents (enqueue 7 1 (State.init 0)) =
        front_of_queue (enqueue 7 1 (State.init 0)) ::
          contents (enter_bathroom_resume 1 (enqueue 7 1 (State.init 0))).state :=
  ⟨by decide, by decide, by decide,
    ((entry_predicate_amended 1 (enqueue 7 1 (State.init 0)) (by decide)).2.2
      (by decide)).2.2.2.1,
    ((entry_predicate_amended 1 (enqueue 7 1 (State.init 0)) (by decide)).2.2
      (by decide)).2.2.2.2.2.2.2 (by decide)⟩

/-- C4, as stated, fails: in `raceTrace` (no spurious wake-up) the man with id 2
calls `enter_bathroom` before the man with id 3, both suspend behind the woman
with id 1, her `leave_bathroom` broadcasts, and the man with id 3 runs first:
he is inside while the man with id 2 is still suspended. -/
theorem fifo_within_category_counterexample :
    (∀ e ∈ raceTrace, e.valid) ∧
      (run false (Sys.init 0) raceTrace).map (fun s => s.threads) =
        some [⟨1, 2, .done, true⟩, ⟨2, 1, .waiting true, true⟩, ⟨3, 1, .inside, true⟩] := by
  decide

/-- C4, amended (first in, first out for the queue entries): in every reachable
state the entries returned by the `dequeue()` calls so far, in call order,
followed by the entries still in the queue, are the entries stored by the
`enqueue` calls, in call order; the same holds among the entries of any one
category.  So of two stored entries the one stored first is removed first. -/
theorem fifo_queue_entries (spurious : Bool) (t0 : Int) (s : Sys)
    (h : Reachable spurious t0 s) :
    storedEntries s.threads = removedEntries s ++ contents s.st ∧
      ∀ g : Int,
        (storedEntries s.threads).filter (fun p => decide (p.gender = g)) =
          (removedEntries s).filter (fun p => decide (p.gender = g)) ++
            (contents s.st).filter (fun p => decide (p.gender = g)) := by
  have hf := (Inv_reachable spurious t0 s h).fifo
  refine ⟨hf, fun g => ?_⟩
  rw [hf, List.filter_append]

/-- Witness of the amended C4: the state at the end of `raceTrace`. -/
theorem fifo_queue_entries_witness :
    Reachable false 0 (afterTrace false 0 raceTrace) ∧
      removedEntries (afterTrace false 0 raceTrace) = [⟨1, 2⟩, ⟨2, 1⟩] ∧
      storedEntries (afterTrace false 0 raceTrace).threads =
        removedEntries (afterTrace false 0 raceTrace) ++
          contents (afterTrace false 0 raceTrace).st :=
  ⟨reachable_afterTrace false 0 _ (by decide) (by decide), by decide,
    (fifo_queue_entries false 0 _
      (reachable_afterTrace false 0 _ (by decide) (by decide))).1⟩

/-- C5, as stated, fails: in `bargeTrace` (no spurious wake-up) the man with
id 3 calls `enter_bathroom` after the woman has left and while the man with
id 2 is still suspended; he passes the loop at once and his `dequeue()` returns
the `Person` with id 2. -/
theorem admitted_is_queue_head_counterexample :
    (∀ e ∈ bargeTrace, e.valid) ∧
      (run false (Sys.init 0) bargeTrace).map
          (fun s => (s.threads.map Thread.id, s.threads.map Thread.phase, s.admissions)) =
        some ([1, 2, 3], [.done, .waiting true, .inside], [(0, ⟨1, 2⟩), (2, ⟨2, 1⟩)]) := by
  decide

/-- C5, amended: in every reachable state, each admission in the log is the
admission of an existing thread of category 1 or 2, and the `Person` that its
`dequeue()` returned has the category of that thread. -/
theorem admitted_removes_own_category (spurious : Bool) (t0 : Int) (s : Sys)
    (h : Reachable spurious t0 s) :
    ∀ a ∈ s.admissions, ∃ th : Thread,
      s.threads[a.1]? = some th ∧ a.2.gender = th.gender ∧
        (th.gender = 1 ∨ th.gender = 2) := by
  intro a ha
  have hinv := Inv_reachable spurious t0 s h
  have hg := hinv.adm a ha
  unfold genderAt at hg
  cases hth : s.threads[a.1]? with
  | none => simp [hth] at hg
  | some th =>
    simp only [hth, Option.map_some', Option.some.injEq] at hg
    exact ⟨th, rfl, hg.symm, hinv.genders th (mem_of_getElem? _ _ _ hth)⟩

/-- Witness of the amended C5: the state at the end of `bargeTrace`. -/
theorem admitted_removes_own_category_witness :
    Reachable false 0 (afterTrace false 0 bargeTrace) ∧
      (afterTrace false 0 bargeTrace).admissions = [(0, ⟨1, 2⟩), (2, ⟨2, 1⟩)] ∧
      ∀ a ∈ (afterTrace false 0 bargeTrace).admissions, ∃ th : Thread,
        (afterTrace false 0 bargeTrace).threads[a.1]? = some th ∧ a.2.gender = th.gender ∧
          (th.gender = 1 ∨ th.gender = 2) :=
  ⟨reachable_afterTrace false 0 _ (by decide) (by decide), by decide,
    admitted_removes_own_category false 0 _
      (reachable_afterTrace false 0 _ (by decide) (by decide))⟩

/-- C6 (scenario with capacity 3): A1, A2 and A3 are admitted on arrival and the
counter of category 1 is 3; A4 and then B1 suspend; after A1, A2 and A3 have
left the counter is 0, the queue is [A4, B1], the loop guard is false for
category 1 and true for category 2, and B1 stays suspended if it runs; after
A4 is admitted the guard for category 2 is still true and B1 stays suspended if
it runs; after A4 has left the guard for category 2 is false and B1 is
admitted.  Each observation is the list of phases, `men_in_bathroom`,
`women_in_bathroom`, the queue, and the guard for categories 1 and 2. -/
theorem capacity_three_scenario :
    MAX_CAPACITY = 3 ∧ (∀ e ∈ capacityScenario, e.valid) ∧
      (run false (Sys.init 0) (capacityScenario.take 1)).map observe =
        some ⟨[.inside], 1, 0, [], true, true⟩ ∧
      (run false (Sys.init 0) (capacityScenario.take 2)).map observe =
        some ⟨[.inside, .inside], 2, 0, [], true, true⟩ ∧
      (run false (Sys.init 0) (capacityScenario.take 3)).map observe =
        some ⟨[.inside, .inside, .inside], 3, 0, [], true, true⟩ ∧
      (run false (Sys.init 0) (capacityScenario.take 4)).map observe =
        some ⟨[.inside, .inside, .inside, .waiting false], 3, 0, [⟨4, 1⟩], true, true⟩ ∧
      (run false (Sys.init 0) (capacityScenario.take 5)).map observe =
        some ⟨[.inside, .inside, .inside, .waiting false, .waiting false], 3, 0,
          [⟨4, 1⟩, ⟨5, 2⟩], true, true⟩ ∧
      (run false (Sys.init 0) (capacityScenario.take 8)).map observe =
        some ⟨[.done, .done, .done, .waiting true, .waiting true], 0, 0,
          [⟨4, 1⟩, ⟨5, 2⟩], false, true⟩ ∧
      (run false (Sys.init 0) (capacityScenario.take 8 ++ [.wake 8 4])).map observe =
        some ⟨[.done, .done, .done, .waiting true, .waiting false], 0, 0,
          [⟨4, 1⟩, ⟨5, 2⟩], false, true⟩ ∧
      (run false (Sys.init 0) (capacityScenario.take 9)).map observe =
        some ⟨[.done, .done, .done, .inside, .waiting true], 1, 0, [⟨5, 2⟩], true, true⟩ ∧
      (run false (Sys.init 0) (capacityScenario.take 9 ++ [.wake 9 4])).map observe =
        some ⟨[.done, .done, .done, .inside, .waiting false], 1, 0, [⟨5, 2⟩], true, true⟩ ∧
      (run false (Sys.init 0) (capacityScenario.take 10)).map observe =
        some ⟨[.done, .done, .done, .done, .waiting true], 0, 0, [⟨5, 2⟩], true, false⟩ ∧
      (run false (Sys.init 0) capacityScenario).map observe =
        some ⟨[.done, .done, .done, .done, .inside], 0, 1, [], true, true⟩ := by
  refine ⟨?_, ?_, ?_, ?_, ?_, ?_, ?_, ?_, ?_, ?_, ?_, ?_, ?_⟩ <;> decide

/-- C7, as stated, fails: after `fillTrace` (no spurious wake-up) the queue holds
100 entries of category 1 and nobody is inside; the `enqueue` of the man with
id 101 is a no-op, yet he passes the loop at once, his `dequeue()` returns the
`Person` with id 1, and `men_in_bathroom` becomes 1. -/
theorem overflow_drop_counterexample :
    (∀ e ∈ overflowTrace, e.valid) ∧
      (run false (Sys.init 0) fillTrace).map
          (fun s => (s.st.queue_size, s.st.men_in_bathroom, s.st.women_in_bathroom)) =
        some (100, 0, 0) ∧
      (run false (Sys.init 0) overflowTrace).map
          (fun s => (s.threads.getLast?, s.admissions.getLast?, s.st.men_in_bathroom)) =
        some (some ⟨101, 1, .inside, false⟩, some (101, ⟨1, 1⟩), 1) := by
  refine ⟨?_, ?_, ?_⟩ <;> decide

theorem mem_storedEntries (l : List Thread) (p : Person) (h : p ∈ storedEntries l) :
    ∃ (t1 : Nat) (th1 : Thread),
      l[t1]? = some th1 ∧ th1.stored = true ∧ p = ⟨th1.id, th1.gender⟩ := by
  unfold storedEntries at h
  obtain ⟨th1, hmem, rfl⟩ := List.mem_map.mp h
  obtain ⟨hin, hst⟩ := List.mem_filter.mp hmem
  obtain ⟨t1, ht1⟩ := List.mem_iff_getElem?.mp hin
  exact ⟨t1, th1, ht1, hst, rfl⟩

/-- What an admission does in a state of an execution: the queue head, an
entry stored by an earlier thread, is removed and the counter of the admitted
category grows by one. -/
theorem admission_effect (s : Sys) (g : Int) (hinv : Inv s) (hg : g = 1 ∨ g = 2)
    (hc : wait_condition g s.st = false) :
    (enter_bathroom_entry g s.st).1 = front_of_queue s.st ∧
      contents s.st = front_of_queue s.st :: contents (enter_bathroom_entry g s.st).2 ∧
      count g (enter_bathroom_entry g s.st).2 = count g s.st + 1 ∧
      oppositeCount g (enter_bathroom_entry g s.st).2 = oppositeCount g s.st ∧
      ∃ (t1 : Nat) (th1 : Thread),
        s.threads[t1]? = some th1 ∧ th1.stored = true ∧
          front_of_queue s.st = ⟨th1.id, th1.gender⟩ := by
  have h3 := (wait_condition_false_iff g hg s.st).mp hc
  have hpos : 0 < s.st.queue_size := by
    apply queue_nonempty_of_front
    rw [h3.2.2]
    rcases hg with rfl | rfl <;> decide
  have hcont := contents_entry g s.st hinv.wf hpos
  have hmem : front_of_queue s.st ∈ storedEntries s.threads := by
    rw [hinv.fifo, hcont]
    exact List.mem_append_right _ (List.mem_cons_self _ _)
  refine ⟨entry_fst g s.st, hcont, ?_, ?_, mem_storedEntries _ _ hmem⟩
  · rcases hg with rfl | rfl <;> simp [count, entry_men, entry_women]
  · rcases hg with rfl | rfl <;> simp [oppositeCount, entry_men, entry_women]

/-- C7, amended: a requester of category `g` in {1, 2} whose `enter_bathroom`
call finds `MAX_QUEUE_SIZE` entries in the queue stores no entry (`enqueue`
changes nothing) and then runs the wait loop like every other requester.  In
that call, and at every later return from `pthread_cond_wait` in any reachable
state, it is admitted exactly when the opposite counter is 0, its own counter
is below `MAX_CAPACITY` and the category of the queue head is `g`.  The
admission removes the queue head, which is an entry stored by another thread,
logs it, and adds one to the counter of `g`, the other counter unchanged;
otherwise the thread is suspended and the globals and the log stay as they
were. -/
theorem overflow_requester_admission (spurious : Bool) (t0 : Int) (s : Sys)
    (h : Reachable spurious t0 s) :
    (∀ now id g : Int, (g = 1 ∨ g = 2) → s.st.queue_size = MAX_QUEUE_SIZE →
        enqueue id g s.st = s.st ∧
          ∃ (s1 : Sys) (ph : Phase),
            step spurious s (.arrive now id g) = some s1 ∧
              s1.threads = s.threads ++ [⟨id, g, ph, false⟩] ∧
              (ph = .inside ∨ ph = .waiting false) ∧
              (ph = .inside ↔
                oppositeCount g s.st = 0 ∧ count g s.st < MAX_CAPACITY ∧
                  (front_of_queue s.st).gender = g) ∧
              (ph = .inside →
                s1.st = (enter_bathroom_entry g s.st).2 ∧
                  s1.admissions = s.admissions ++ [(s.threads.length, front_of_queue s.st)] ∧
                  contents s.st = front_of_queue s.st :: contents s1.st ∧
                  count g s1.st = count g s.st + 1 ∧
                  oppositeCount g s1.st = oppositeCount g s.st ∧
                  ∃ (t1 : Nat) (th1 : Thread),
                    s.threads[t1]? = some th1 ∧ th1.stored = true ∧
                      front_of_queue s.st = ⟨th1.id, th1.gender⟩) ∧
              (ph = .waiting false → s1.st = s.st ∧ s1.admissions = s.admissions)) ∧
      (∀ (now : Int) (t : Nat) (th : Thread) (sig : Bool),
        s.threads[t]? = some th → th.stored = false → th.phase = .waiting sig →
          (spurious || sig) = true →
          ∃ (s1 : Sys) (ph : Phase),
            step spurious s (.wake now t) = some s1 ∧
              s1.threads = s.threads.set t { th with phase := ph } ∧
              (ph = .inside ∨ ph = .waiting false) ∧
              (ph = .inside ↔
                oppositeCount th.gender s.st = 0 ∧ count th.gender s.st < MAX_CAPACITY ∧
                  (front_of_queue s.st).gender = th.gender) ∧
              (ph = .inside →
                s1.st = (enter_bathroom_entry th.gender s.st).2 ∧
                  s1.admissions = s.admissions ++ [(t, front_of_queue s.st)] ∧
                  contents s.st = front_of_queue s.st :: contents s1.st ∧
                  count th.gender s1.st = count th.gender s.st + 1 ∧
                  oppositeCount th.gender s1.st = oppositeCount th.gender s.st ∧
                  ∃ (t1 : Nat) (th1 : Thread),
                    t1 ≠ t ∧ s.threads[t1]? = some th1 ∧ th1.stored = true ∧
                      front_of_queue s.st = ⟨th1.id, th1.gender⟩) ∧
              (ph = .waiting false → s1.st = s.st ∧ s1.admissions = s.admissions)) := by
  have hinv := Inv_reachable spurious t0 s h
  obtain ⟨hm0, hw0⟩ := Inv_nonneg hinv
  have hoppnn : ∀ g : Int, 0 ≤ oppositeCount g s.st := by
    intro g
    unfold oppositeCount
    split <;> assumption
  constructor
  · intro now id g hg hfull
    have hnlt : ¬ s.st.queue_size < MAX_QUEUE_SIZE := by rw [hfull]; exact lt_irrefl _
    have henq := enqueue_of_full id g s.st hnlt
    have hiff := wait_condition_false_iff g hg s.st
    have hopp := hoppnn g
    refine ⟨henq, ?_⟩
    cases hc : wait_condition g s.st
    · have h3 := hiff.mp hc
      obtain ⟨e1, e2, e3, e4, e5⟩ := admission_effect s g hinv hg hc
      refine ⟨{ st := (enter_bathroom_entry g s.st).2
                threads := s.threads ++ [⟨id, g, .inside, false⟩]
                admissions :=
                  s.admissions ++ [(s.threads.length, (enter_bathroom_entry g s.st).1)] },
        .inside, ?_, rfl, Or.inl rfl, ?_, ?_, ?_⟩
      · simp only [step, enter_bathroom, enter_bathroom_resume, henq, hc, Bool.false_eq_true,
          if_false, hnlt, decide_False]
      · exact ⟨fun _ => ⟨by omega, h3.2.1, h3.2.2⟩, fun _ => rfl⟩
      · intro _
        exact ⟨rfl, by rw [e1], e2, e3, e4, e5⟩
      · intro hp
        exact absurd hp (by simp)
    · refine ⟨{ st := s.st
                threads := s.threads ++ [⟨id, g, .waiting false, false⟩]
                admissions := s.admissions },
        .waiting false, ?_, rfl, Or.inr rfl, ?_, ?_, ?_⟩
      · simp only [step, enter_bathroom, enter_bathroom_resume, henq, hc, if_true, hnlt,
          decide_False]
      · constructor
        · intro hp
          exact absurd hp (by simp)
        · intro h3
          have := hiff.mpr ⟨by omega, h3.2.1, h3.2.2⟩
          rw [hc] at this
          exact absurd this (by decide)
      · intro hp
        exact absurd hp (by simp)
      · intro _
        exact ⟨rfl, rfl⟩
  · intro now t th sig hth hst hph hrun
    have hg : th.gender = 1 ∨ th.gender = 2 := hinv.genders th (mem_of_getElem? _ _ _ hth)
    have hiff := wait_condition_false_iff th.gender hg s.st
    have hopp := hoppnn th.gender
    cases hc : wait_condition th.gender s.st
    · have h3 := hiff.mp hc
      obtain ⟨e1, e2, e3, e4, t1, th1, f1, f2, f3⟩ := admission_effect s th.gender hinv hg hc
      have hne : t1 ≠ t := by
        intro heq
        subst heq
        rw [hth, Option.some.injEq] at f1
        subst f1
        rw [hst] at f2
        exact absurd f2 (by decide)
      refine ⟨{ st := (enter_bathroom_entry th.gender s.st).2
                threads := s.threads.set t { th with phase := .inside }
                admissions := s.admissions ++ [(t, (enter_bathroom_entry th.gender s.st).1)] },
        .inside, ?_, rfl, Or.inl rfl, ?_, ?_, ?_⟩
      · simp only [step, hth, hph, hrun, if_true, enter_bathroom_resume, hc,
          Bool.false_eq_true, if_false]
      · exact ⟨fun _ => ⟨by omega, h3.2.1, h3.2.2⟩, fun _ => rfl⟩
      · intro _
        exact ⟨rfl, by rw [e1], e2, e3, e4, t1, th1, hne, f1, f2, f3⟩
      · intro hp
        exact absurd hp (by simp)
    · refine ⟨{ st := s.st
                threads := s.threads.set t { th with phase := .waiting false }
                admissions := s.admissions },
        .waiting false, ?_, rfl, Or.inr rfl, ?_, ?_, ?_⟩
      · simp only [step, hth, hph, hrun, if_true, enter_bathroom_resume, hc]
      · constructor
        · intro hp
          exact absurd hp (by simp)
        · intro h3
          have := hiff.mpr ⟨by omega, h3.2.1, h3.2.2⟩
          rw [hc] at this
          exact absurd this (by decide)
      · intro hp
        exact absurd hp (by simp)
      · intro _
        exact ⟨rfl, rfl⟩

/-- Witness of the amended C7: the man with id 101 arriving after `fillTrace`,
where the queue holds 100 entries; and the same man in `droppedWaitTrace`,
suspended with no entry of his own, when he returns from `pthread_cond_wait`. -/
theorem overflow_requester_admission_witness :
    Reachable false 0 (afterTrace false 0 fillTrace) ∧
      (afterTrace false 0 fillTrace).st.queue_size = MAX_QUEUE_SIZE ∧
      enqueue 101 1 (afterTrace false 0 fillTrace).st = (afterTrace false 0 fillTrace).st ∧
      (afterTrace false 0 droppedWaitTrace).threads[101]? =
        some ⟨101, 1, .waiting true, false⟩ ∧
      ∃ (s1 : Sys) (ph : Phase),
        step false (afterTrace false 0 droppedWaitTrace) (.wake 5 101) = some s1 ∧
          s1.threads = (afterTrace false 0 droppedWaitTrace).threads.set 101
            ⟨101, 1, ph, false⟩ :=
  ⟨reachable_afterTrace false 0 _ (by decide) (by decide), by decide,
    ((overflow_requester_admission false 0 _
      (reachable_afterTrace false 0 _ (by decide) (by decide))).1 3 101 1
        (by decide) (by decide)).1,
    by decide,
    by
      obtain ⟨s1, ph, h1, h2, _⟩ :=
        (overflow_requester_admission false 0 (afterTrace false 0 droppedWaitTrace)
          (reachable_afterTrace false 0 _ (by decide) (by decide))).2 5 101
            ⟨101, 1, .waiting true, false⟩ true (by decide) rfl rfl rfl
      exact ⟨s1, ph, h1, h2⟩⟩

/-- C8, as stated, fails: `leave_bathroom` called at program start, where both
counters are 0, returns with the counter of its category at -1. -/
theorem underflow_fatal_counterexample :
    (leave_bathroom 1 5 (State.init 0)).1.men_in_bathroom = -1 ∧
      (leave_bathroom 2 5 (State.init 0)).1.women_in_bathroom = -1 := by
  decide

/-- C8, amended: `leave_bathroom(g)` with `g` in {1, 2}, called in a state where
the counter of `g` is 0, returns with that counter at -1; the function has no
failing path. -/
theorem release_underflow (g now : Int) (s : State) (hg : g = 1 ∨ g = 2)
    (h0 : count g s = 0) : count g (leave_bathroom g now s).1 = -1 := by
  rcases hg with rfl | rfl
  · simp only [count, if_true] at h0 ⊢
    rw [leave_men, h0]
    rfl
  · simp only [count, show ¬ ((2 : Int) = 1) by decide, if_false] at h0 ⊢
    rw [leave_women, h0]
    rfl

/-- Witness of the amended C8: a woman's release at program start. -/
theorem release_underflow_witness :
    count 2 (State.init 0) = 0 ∧ count 2 (leave_bathroom 2 9 (State.init 0)).1 = -1 :=
  ⟨by decide, release_underflow 2 9 (State.init 0) (by decide) (by decide)⟩

/-- C9 (effect of a release): `leave_bathroom(g)` with `g` in {1, 2} at clock
time `now` takes one from the counter of `g` and leaves the other counter,
`queue_front`, `queue_size` and the array as they were; `last_exit_time`
becomes `now` when both counters and `queue_size` are 0 after the decrement,
and stays as it was otherwise. -/
theorem release_effect (g now : Int) (s : State) (hg : g = 1 ∨ g = 2) :
    count g (leave_bathroom g now s).1 = count g s - 1 ∧
      oppositeCount g (leave_bathroom g now s).1 = oppositeCount g s ∧
      (leave_bathroom g now s).1.queue_front = s.queue_front ∧
      (leave_bathroom g now s).1.queue_size = s.queue_size ∧
      (leave_bathroom g now s).1.waiting_queue = s.waiting_queue ∧
      (leave_bathroom g now s).1.last_exit_time =
        if (leave_bathroom g now s).1.men_in_bathroom = 0 ∧
            (leave_bathroom g now s).1.women_in_bathroom = 0 ∧
            (leave_bathroom g now s).1.queue_size = 0 then now
        else s.last_exit_time := by
  obtain ⟨q1, q2, q3⟩ := leave_queue g now s
  refine ⟨?_, ?_, q2, q3, q1, ?_⟩
  · rcases hg with rfl | rfl <;> simp [count, leave_men, leave_women]
  · rcases hg with rfl | rfl <;> simp [oppositeCount, leave_men, leave_women]
  · rw [leave_men, leave_women, q3]
    unfold leave_bathroom
    rcases hg with rfl | rfl
    · simp only [if_true]
      split <;> rename_i hc <;> simp [hc]
    · simp only [show ¬ ((2 : Int) = 1) by decide, if_false]
      split <;> rename_i hc <;> simp [hc]

/-- Witness of C9: the last man leaves an empty queue at clock time 42. -/
theorem release_effect_witness :
    count 1 (leave_bathroom 1 42 { State.init 0 with men_in_bathroom := 1 }).1 =
        count 1 { State.init 0 with men_in_bathroom := 1 } - 1 ∧
      (leave_bathroom 1 42 { State.init 0 with men_in_bathroom := 1 }).1.last_exit_time = 42 :=
  ⟨(release_effect 1 42 { State.init 0 with men_in_bathroom := 1 } (by decide)).1, by decide⟩

/-- C10 (wake on drain): `leave_bathroom(g)` with `g` in {1, 2} calls
`pthread_cond_broadcast` exactly when the counter of `g` is 0 after the
decrement. -/
theorem wake_on_drain (g now : Int) (s : State) (hg : g = 1 ∨ g = 2) :
    (leave_bathroom g now s).2 = true ↔ count g (leave_bathroom g now s).1 = 0 := by
  rcases hg with rfl | rfl <;> simp [leave_bathroom, count]

/-- Witness of C10: of two men inside, the first to leave does not broadcast and
the second does. -/
theorem wake_on_drain_witness :
    (leave_bathroom 1 4 { State.init 0 with men_in_bathroom := 2 }).2 = false ∧
      ((leave_bathroom 1 4 { State.init 0 with men_in_bathroom := 1 }).2 = true ↔
        count 1 (leave_bathroom 1 4 { State.init 0 with men_in_bathroom := 1 }).1 = 0) :=
  ⟨by decide, wake_on_drain 1 4 { State.init 0 with men_in_bathroom := 1 } (by decide)⟩

/-! ## The claims on the inactivity test and on the queue functions -/

/-- C12 (idle query): for every state, clock reading `now` and threshold `T`, the
inactivity test is true exactly when `men_in_bathroom`, `women_in_bathroom`
and `queue_size` are 0 and `now - last_exit_time` is at least `T`; for the
empty system with `last_exit_time = t0` it is false at every `now < t0 + T` and
true at every `now ≥ t0 + T`. -/
theorem idle_query (T now : Int) (s : State) :
    (inactivity_check T now s = true ↔
        s.men_in_bathroom = 0 ∧ s.women_in_bathroom = 0 ∧ s.queue_size = 0 ∧
          now - s.last_exit_time ≥ T) ∧
      ∀ t0 : Int,
        (now < t0 + T → inactivity_check T now (State.init t0) = false) ∧
          (now ≥ t0 + T → inactivity_check T now (State.init t0) = true) := by
  refine ⟨?_, fun t0 => ⟨fun h => ?_, fun h => ?_⟩⟩
  · simp only [inactivity_check, Bool.and_eq_true, decide_eq_true_eq]
    constructor
    · rintro ⟨⟨⟨h1, h2⟩, h3⟩, h4⟩
      exact ⟨h2, h3, h4, h1⟩
    · rintro ⟨h2, h3, h4, h1⟩
      exact ⟨⟨⟨h1, h2⟩, h3⟩, h4⟩
  · have : ¬ (now - t0 ≥ T) := by omega
    simp [inactivity_check, State.init, this]
  · have : now - t0 ≥ T := by omega
    simp [inactivity_check, State.init, this]

/-- C13 (`enqueue`): on a well-formed ring buffer with `queue_size` below
`MAX_QUEUE_SIZE`, `enqueue` appends `Person{id, gender}` to the logical
contents and adds one to `queue_size`; with `queue_size` equal to
`MAX_QUEUE_SIZE` it changes nothing. -/
theorem enqueue_contract (id gender : Int) (s : State) (hwf : QueueWF s) :
    (s.queue_size < MAX_QUEUE_SIZE →
        contents (enqueue id gender s) = contents s ++ [⟨id, gender⟩] ∧
          (enqueue id gender s).queue_size = s.queue_size + 1 ∧
          (enqueue id gender s).queue_front = s.queue_front) ∧
      (s.queue_size = MAX_QUEUE_SIZE →
        enqueue id gender s = s ∧
          (enqueue id gender s).queue_front = s.queue_front ∧
          (enqueue id gender s).queue_size = s.queue_size ∧
          contents (enqueue id gender s) = contents s) := by
  constructor
  · intro hlt
    refine ⟨contents_enqueue id gender s hwf hlt, ?_, ?_⟩ <;> simp [enqueue, hlt]
  · intro hfull
    have h : enqueue id gender s = s :=
      enqueue_of_full id gender s (by rw [hfull]; exact lt_irrefl _)
    rw [h]
    exact ⟨rfl, rfl, rfl, rfl⟩

/-- Witness of C13: the first `enqueue` of the program. -/
theorem enqueue_contract_witness :
    QueueWF (State.init 0) ∧ (State.init 0).queue_size < MAX_QUEUE_SIZE ∧
      contents (enqueue 7 2 (State.init 0)) = contents (State.init 0) ++ [⟨7, 2⟩] :=
  ⟨by decide, by decide,
    ((enqueue_contract 7 2 (State.init 0) (by decide)).1 (by decide)).1⟩

/-- C14 (`dequeue`): on a well-formed ring buffer that is not empty, `dequeue`
returns the first entry of the logical contents, which become the old contents
without it, and takes one from `queue_size`; on an empty one it returns
`Person{0, 0}` and changes nothing. -/
theorem dequeue_contract (s : State) (hwf : QueueWF s) :
    (0 < s.queue_size →
        contents s = (dequeue s).1 :: contents (dequeue s).2 ∧
          contents (dequeue s).2 = (contents s).tail ∧
          (dequeue s).2.queue_size = s.queue_size - 1) ∧
      (s.queue_size = 0 → dequeue s = (⟨0, 0⟩, s)) := by
  constructor
  · intro hpos
    have h := contents_dequeue s hwf hpos
    rw [← dequeue_fst] at h
    refine ⟨h, ?_, ?_⟩
    · rw [h, List.tail_cons]
    · simp [dequeue, hpos]
  · intro h0
    simp [dequeue, h0]

/-- Witness of C14: `dequeue` after one `enqueue` at program start. -/
theorem dequeue_contract_witness :
    QueueWF (enqueue 7 2 (State.init 0)) ∧ 0 < (enqueue 7 2 (State.init 0)).queue_size ∧
      (dequeue (enqueue 7 2 (State.init 0))).1 = ⟨7, 2⟩ ∧
      contents (dequeue (enqueue 7 2 (State.init 0))).2 =
        (contents (enqueue 7 2 (State.init 0))).tail :=
  ⟨by decide, by decide, by decide,
    ((dequeue_contract (enqueue 7 2 (State.init 0)) (by decide)).1 (by decide)).2.1⟩

/-- C15 (`front_of_queue`): the function only reads the globals, so it is a
function of the state and leaves `queue_front`, `queue_size` and the contents
as they are.  With `queue_size > 0` it returns the first entry of the logical
contents (ring buffer well-formed) and the `Person` that a following `dequeue`
returns; with an empty queue it returns `Person{0, 0}`. -/
theorem front_of_queue_contract (s : State) :
    (QueueWF s → 0 < s.queue_size → (contents s).head? = some (front_of_queue s)) ∧
      (0 < s.queue_size → (dequeue s).1 = front_of_queue s) ∧
      (s.queue_size = 0 → front_of_queue s = ⟨0, 0⟩) := by
  refine ⟨fun hwf hpos => ?_, fun _ => dequeue_fst s, fun h0 => ?_⟩
  · rw [contents_dequeue s hwf hpos, List.head?_cons]
  · simp [front_of_queue, h0]

/-- Witness of C15: the head after two `enqueue` calls at program start. -/
theorem front_of_queue_contract_witness :
    QueueWF (enqueue 8 1 (enqueue 7 2 (State.init 0))) ∧
      0 < (enqueue 8 1 (enqueue 7 2 (State.init 0))).queue_size ∧
      front_of_queue (enqueue 8 1 (enqueue 7 2 (State.init 0))) = ⟨7, 2⟩ ∧
      (contents (enqueue 8 1 (enqueue 7 2 (State.init 0)))).head? =
        some (front_of_queue (enqueue 8 1 (enqueue 7 2 (State.init 0)))) :=
  ⟨by decide, by decide, by decide,
    (front_of_queue_contract (enqueue 8 1 (enqueue 7 2 (State.init 0)))).1
      (by decide) (by decide)⟩

/-- Witness of C12: the empty system at start time 10 with threshold 2. -/
theorem idle_query_witness :
    (11 : Int) < 10 + 2 ∧ inactivity_check 2 11 (State.init 10) = false ∧
      (12 : Int) ≥ 10 + 2 ∧ inactivity_check 2 12 (State.init 10) = true :=
  ⟨by decide, ((idle_query 2 11 (State.init 10)).2 10).1 (by decide), by decide,
    ((idle_query 2 12 (State.init 10)).2 10).2 (by decide)⟩

/-- C18 (no admission from an empty queue): `front_of_queue` on an empty queue
has category 0; so for `g` in {1, 2}, when the loop guard is false,
`queue_size` is positive, and the `dequeue()` of the admission returns the
stored head, takes one from `queue_size` and moves `queue_front` on by one
slot. -/
theorem admission_queue_nonempty (g : Int) (s : State) (hg : g = 1 ∨ g = 2)
    (hc : wait_condition g s = false) :
    (∀ s0 : State, ¬ 0 < s0.queue_size → (front_of_queue s0).gender = 0) ∧
      0 < s.queue_size ∧
      (dequeue s).1 = readSlot s.waiting_queue s.queue_front ∧
      (dequeue s).2.queue_size = s.queue_size - 1 ∧
      (dequeue s).2.queue_front = (s.queue_front + 1).tmod MAX_QUEUE_SIZE ∧
      (enter_bathroom_entry g s).2.queue_size = s.queue_size - 1 := by
  have h3 := (wait_condition_false_iff g hg s).mp hc
  have hpos : 0 < s.queue_size := by
    apply queue_nonempty_of_front
    rw [h3.2.2]
    rcases hg with rfl | rfl <;> decide
  refine ⟨fun s0 h0 => ?_, hpos, ?_, ?_, ?_, ?_⟩
  · simp [front_of_queue, h0]
  · simp [dequeue, hpos]
  · simp [dequeue, hpos]
  · simp [dequeue, hpos]
  · rw [(entry_queue g s).2]
    simp [dequeue, hpos]

/-- Witness of C18: a woman at the head of the queue at program start. -/
theorem admission_queue_nonempty_witness :
    wait_condition 2 (enqueue 7 2 (State.init 0)) = false ∧
      0 < (enqueue 7 2 (State.init 0)).queue_size :=
  ⟨by decide,
    (admission_queue_nonempty 2 (enqueue 7 2 (State.init 0)) (by decide) (by decide)).2.1⟩

/-- C19 (ring buffer well-formedness): `0 ≤ queue_front < MAX_QUEUE_SIZE` and
`0 ≤ queue_size ≤ MAX_QUEUE_SIZE` hold at program start and after every
`enqueue` and `dequeue` (`front_of_queue` writes nothing); under them the two
indices used into `waiting_queue`, `(queue_front + queue_size) % MAX_QUEUE_SIZE`
and `queue_front`, lie in `[0, MAX_QUEUE_SIZE)`. -/
theorem ring_buffer_wellformed :
    (∀ t0 : Int, QueueWF (State.init t0)) ∧
      ∀ s : State, QueueWF s →
        (∀ id g : Int, QueueWF (enqueue id g s)) ∧ QueueWF (dequeue s).2 ∧
          0 ≤ (s.queue_front + s.queue_size).tmod MAX_QUEUE_SIZE ∧
          (s.queue_front + s.queue_size).tmod MAX_QUEUE_SIZE < MAX_QUEUE_SIZE ∧
          0 ≤ s.queue_front ∧ s.queue_front < MAX_QUEUE_SIZE := by
  refine ⟨QueueWF_init, fun s hwf => ⟨fun id g => QueueWF_enqueue id g s hwf,
    QueueWF_dequeue s hwf, ?_, ?_, hwf.1, hwf.2.1⟩⟩
  · obtain ⟨h1, h2, h3, h4⟩ := hwf
    rw [tmod_cap (by omega)]
    omega
  · obtain ⟨h1, h2, h3, h4⟩ := hwf
    rw [tmod_cap (by omega)]
    simp only [MAX_QUEUE_SIZE]
    omega

/-- Witness of C19: the ring buffer after `wrapOps`, whose tail index has
wrapped to slot 0 (`queue_front` is 4, `queue_size` is 97). -/
theorem ring_buffer_wellformed_witness :
    QueueWF (applyOps (State.init 0) wrapOps) ∧
      (applyOps (State.init 0) wrapOps).queue_front = 4 ∧
      QueueWF (dequeue (applyOps (State.init 0) wrapOps)).2 :=
  ⟨by decide, by decide,
    (ring_buffer_wellformed.2 (applyOps (State.init 0) wrapOps) (by decide)).2.1⟩

/-- C20 (category outside {1, 2}): for every state and every `g` other than 1
and 2 the loop guard is false, so `enter_bathroom(id, g)` never waits; it
stores its entry when there is room, removes the head entry if there is one,
adds one to `women_in_bathroom` and leaves `men_in_bathroom` as it is.  With
such a requester the counters can both be positive (`bypassTrace`) and
`women_in_bathroom` can exceed `MAX_CAPACITY` (`bypassCapacityTrace`). -/
theorem out_of_range_category (id g : Int) (s : State) (h1 : g ≠ 1) (h2 : g ≠ 2) :
    wait_condition g s = false ∧
      (enter_bathroom id g s).isAdmitted = true ∧
      (enter_bathroom id g s).state.women_in_bathroom = s.women_in_bathroom + 1 ∧
      (enter_bathroom id g s).state.men_in_bathroom = s.men_in_bathroom ∧
      (enter_bathroom id g s).state.queue_size = (dequeue (enqueue id g s)).2.queue_size ∧
      (enter_bathroom id g s).state.queue_front = (dequeue (enqueue id g s)).2.queue_front ∧
      (run false (Sys.init 0) bypassTrace).map observe =
        some ⟨[.inside, .inside], 1, 1, [], true, true⟩ ∧
      (run false (Sys.init 0) bypassCapacityTrace).map observe =
        some ⟨[.inside, .inside, .inside, .inside], 0, 4, [], true, true⟩ := by
  have hc : ∀ s0 : State, wait_condition g s0 = false := by
    intro s0
    simp [wait_condition, h1, h2]
  have hr : enter_bathroom id g s =
      .admitted (enter_bathroom_entry g (enqueue id g s)).1
        (enter_bathroom_entry g (enqueue id g s)).2 := by
    simp [enter_bathroom, enter_bathroom_resume, hc]
  refine ⟨hc s, ?_, ?_, ?_, ?_, ?_, by decide, by decide⟩
  · rw [hr]; rfl
  · rw [hr]
    simp only [Outcome.state, entry_women, enqueue_women, h1, if_false]
  · rw [hr]
    simp only [Outcome.state, entry_men, enqueue_men, h1, if_false, add_zero]
  · rw [hr]
    exact (entry_queue g (enqueue id g s)).2
  · rw [hr]
    exact (entry_queue g (enqueue id g s)).1

/-- Witness of C20: a requester with category 3 arriving while a man is inside. -/
theorem out_of_range_category_witness :
    (3 : Int) ≠ 1 ∧ (3 : Int) ≠ 2 ∧
      wait_condition 3 { State.init 0 with men_in_bathroom := 1 } = false ∧
      (enter_bathroom 9 3 { State.init 0 with men_in_bathroom := 1 }).state.women_in_bathroom =
        1 ∧
      (enter_bathroom 9 3 { State.init 0 with men_in_bathroom := 1 }).state.men_in_bathroom =
        1 :=
  ⟨by decide, by decide,
    (out_of_range_category 9 3 { State.init 0 with men_in_bathroom := 1 }
      (by decide) (by decide)).1, by decide, by decide⟩

/-! ## The ring buffer is a bounded first-in first-out list -/

theorem contents_length (s : State) : (contents s).length = s.queue_size.toNat := by
  simp [contents]

theorem contents_enqueue_list (id g : Int) (s : State) (hwf : QueueWF s) :
    contents (enqueue id g s) = listEnqueue ⟨id, g⟩ (contents s) := by
  have hlen : ((contents s).length : Int) = s.queue_size := by
    rw [contents_length]
    exact Int.toNat_of_nonneg hwf.2.2.1
  rw [contents_enqueue_cases id g s hwf]
  unfold listEnqueue
  rw [hlen]
  split <;> simp

theorem dequeue_list (s : State) (hwf : QueueWF s) :
    listDequeue (contents s) = ((dequeue s).1, contents (dequeue s).2) := by
  by_cases hpos : 0 < s.queue_size
  · have h := contents_dequeue s hwf hpos
    rw [← dequeue_fst] at h
    rw [h]
    simp only [listDequeue]
  · have h0 : s.queue_size.toNat = 0 := by
      have := hwf.2.2.1
      omega
    have hd : dequeue s = (⟨0, 0⟩, s) := by simp [dequeue, hpos]
    have hcn : contents s = [] := by
      apply List.eq_nil_of_length_eq_zero
      rw [contents_length, h0]
    rw [hd, hcn]
    rfl

theorem applyOps_enq (s : State) (id g : Int) (ops : List QueueOp) :
    applyOps s (.enq id g :: ops) = applyOps (enqueue id g s) ops := rfl

theorem applyOps_deq (s : State) (ops : List QueueOp) :
    applyOps s (.deq :: ops) = applyOps (dequeue s).2 ops := rfl

theorem dequeued_enq (s : State) (id g : Int) (ops : List QueueOp) :
    dequeued s (.enq id g :: ops) = dequeued (enqueue id g s) ops := rfl

theorem dequeued_deq (s : State) (ops : List QueueOp) :
    dequeued s (.deq :: ops) = (dequeue s).1 :: dequeued (dequeue s).2 ops := rfl

theorem listOps_enq (l : List Person) (id g : Int) (ops : List QueueOp) :
    listOps l (.enq id g :: ops) = listOps (listEnqueue ⟨id, g⟩ l) ops := rfl

theorem listOps_deq (l : List Person) (ops : List QueueOp) :
    listOps l (.deq :: ops) = listOps (listDequeue l).2 ops := rfl

theorem listDequeued_enq (l : List Person) (id g : Int) (ops : List QueueOp) :
    listDequeued l (.enq id g :: ops) = listDequeued (listEnqueue ⟨id, g⟩ l) ops := rfl

theorem listDequeued_deq (l : List Person) (ops : List QueueOp) :
    listDequeued l (.deq :: ops) =
      (listDequeue l).1 :: listDequeued (listDequeue l).2 ops := rfl

theorem applyOps_refines (ops : List QueueOp) :
    ∀ s : State, QueueWF s →
      contents (applyOps s ops) = listOps (contents s) ops ∧
        dequeued s ops = listDequeued (contents s) ops ∧ QueueWF (applyOps s ops) := by
  induction ops with
  | nil => intro s hwf; exact ⟨rfl, rfl, hwf⟩
  | cons op ops ih =>
    intro s hwf
    cases op with
    | enq id g =>
      have h := ih (enqueue id g s) (QueueWF_enqueue id g s hwf)
      simp only [applyOps_enq, dequeued_enq, listOps_enq, listDequeued_enq]
      rw [← contents_enqueue_list id g s hwf]
      exact h
    | deq =>
      have h := ih (dequeue s).2 (QueueWF_dequeue s hwf)
      have hd := dequeue_list s hwf
      simp only [applyOps_deq, dequeued_deq, listOps_deq, listDequeued_deq, hd]
      exact ⟨h.1, by rw [h.2.1], h.2.2⟩

/-- C16 (the ring buffer is a FIFO): for every sequence of `enqueue` and
`dequeue` calls from the empty queue of program start, the logical contents of
the circular array are those of a list bounded at `MAX_QUEUE_SIZE` with append
at the tail and removal at the head, and the `dequeue` calls return the same
`Person` values in the same order; the ring buffer stays well-formed.  In
`wrapOps` the entry stored after slot 99 goes to slot 0 and `queue_front` ends
at 4. -/
theorem ring_buffer_fifo (t0 : Int) (ops : List QueueOp) :
    contents (applyOps (State.init t0) ops) = listOps [] ops ∧
      dequeued (State.init t0) ops = listDequeued [] ops ∧
      QueueWF (applyOps (State.init t0) ops) ∧
      (applyOps (State.init 0) wrapOps).queue_front = 4 ∧
      (applyOps (State.init 0) wrapOps).queue_size = 97 ∧
      dequeued (State.init 0) wrapOps = [⟨0, 1⟩, ⟨1, 1⟩, ⟨2, 1⟩, ⟨3, 1⟩] ∧
      (contents (applyOps (State.init 0) wrapOps)).getLast? = some ⟨100, 2⟩ := by
  have h := applyOps_refines ops (State.init t0) (QueueWF_init t0)
  have hc : contents (State.init t0) = [] := rfl
  rw [hc] at h
  exact ⟨h.1, h.2.1, h.2.2, by decide, by decide, by decide, by decide⟩

/-! ## Idle detection along executions -/

theorem enqueue_size_pos (id g : Int) (s : State) (hwf : QueueWF s) :
    0 < (enqueue id g s).queue_size := by
  obtain ⟨_, _, h3, _⟩ := hwf
  unfold enqueue
  split
  · simp only
    omega
  · rename_i h
    simp only [MAX_QUEUE_SIZE] at h
    omega

theorem isIdle_false_of_queue (s : State) (h : 0 < s.queue_size) : isIdle s = false := by
  have : s.queue_size ≠ 0 := by omega
  simp [isIdle, this]

theorem isIdle_false_of_entry (g : Int) (s : State) (hm : 0 ≤ s.men_in_bathroom)
    (hw : 0 ≤ s.women_in_bathroom) : isIdle (enter_bathroom_entry g s).2 = false := by
  have h1 := entry_men g s
  have h2 := entry_women g s
  by_cases hg : g = 1
  · subst hg
    simp only [if_true] at h1
    have : (enter_bathroom_entry 1 s).2.men_in_bathroom ≠ 0 := by omega
    simp [isIdle, this]
  · simp only [hg, if_false] at h2
    have : (enter_bathroom_entry g s).2.women_in_bathroom ≠ 0 := by omega
    simp [isIdle, this]

theorem leave_idle_time (g now : Int) (s : State)
    (h : isIdle (leave_bathroom g now s).1 = true) :
    (leave_bathroom g now s).1.last_exit_time = now := by
  unfold leave_bathroom at h ⊢
  simp only [isIdle, Bool.and_eq_true, decide_eq_true_eq] at h
  by_cases hg : g = 1
  · simp only [hg, if_true] at h ⊢
    split at h <;> rename_i hc
    · rw [if_pos hc]
    · exact absurd ⟨h.1.1, h.1.2, h.2⟩ hc
  · simp only [hg, if_false] at h ⊢
    split at h <;> rename_i hc
    · rw [if_pos hc]
    · exact absurd ⟨h.1.1, h.1.2, h.2⟩ hc

theorem step_idle_cases (sp : Bool) (s s1 : Sys) (e : Event) (hinv : Inv s) (hv : e.valid)
    (hs : step sp s e = some s1) :
    isIdle s1.st = false ∨ (s1.st = s.st ∧ isActivity s s1 e = false) ∨
      (isActivity s s1 e = true ∧ (isIdle s1.st = true → s1.st.last_exit_time = e.now)) := by
  obtain ⟨hm0, hw0⟩ := Inv_nonneg hinv
  cases e with
  | arrive now id g =>
    left
    cases hc : wait_condition g (enqueue id g s.st)
    · simp only [step, enter_bathroom, enter_bathroom_resume, hc, Bool.false_eq_true, if_false,
        Option.some.injEq] at hs
      subst hs
      exact isIdle_false_of_entry g _ (by rw [enqueue_men]; exact hm0)
        (by rw [enqueue_women]; exact hw0)
    · simp only [step, enter_bathroom, enter_bathroom_resume, hc, if_true,
        Option.some.injEq] at hs
      subst hs
      exact isIdle_false_of_queue _ (enqueue_size_pos id g s.st hinv.wf)
  | wake now t =>
    simp only [step] at hs
    cases hth : s.threads[t]? with
    | none => simp [hth] at hs
    | some th =>
      simp only [hth] at hs
      cases hph : th.phase with
      | inside => simp [hph] at hs
      | done => simp [hph] at hs
      | waiting sig =>
        simp only [hph] at hs
        by_cases hrun : (sp || sig) = true
        · simp only [hrun, if_true] at hs
          cases hc : wait_condition th.gender s.st
          · simp only [enter_bathroom_resume, hc, Bool.false_eq_true, if_false,
              Option.some.injEq] at hs
            subst hs
            left
            exact isIdle_false_of_entry th.gender _ hm0 hw0
          · simp only [enter_bathroom_resume, hc, if_true, Option.some.injEq] at hs
            subst hs
            right; left
            exact ⟨rfl, by simp [isActivity]⟩
        · simp [hrun] at hs
  | leave now t =>
    simp only [step] at hs
    cases hth : s.threads[t]? with
    | none => simp [hth] at hs
    | some th =>
      simp only [hth] at hs
      by_cases hph : th.phase = .inside
      · simp only [hph, if_true, Option.some.injEq] at hs
        subst hs
        right; right
        exact ⟨rfl, fun h => leave_idle_time th.gender now s.st h⟩
      · simp [hph] at hs

theorem lastActivity_cons (sp : Bool) (s s1 : Sys) (la : Int) (e : Event) (es : List Event)
    (h : step sp s e = some s1) :
    lastActivity sp s la (e :: es) =
      lastActivity sp s1 (if isActivity s s1 e then e.now else la) es := by
  show (match step sp s e with
    | none => la
    | some s1 => lastActivity sp s1 (if isActivity s s1 e then e.now else la) es) = _
  rw [h]

theorem quietSince_cons (sp : Bool) (s s1 : Sys) (q : Option Int) (e : Event)
    (es : List Event) (h : step sp s e = some s1) :
    quietSince sp s q (e :: es) =
      quietSince sp s1
        (if isIdle s1.st then
          (if isActivity s s1 e then some e.now else some (q.getD e.now))
        else none) es := by
  show (match step sp s e with
    | none => q
    | some s1 =>
      quietSince sp s1
        (if isIdle s1.st then
          (if isActivity s s1 e then some e.now else some (q.getD e.now))
        else none) es) = _
  rw [h]

theorem IdleInv_step (sp : Bool) (s s1 : Sys) (la : Int) (q : Option Int) (e : Event)
    (hinv : Inv s) (hv : e.valid) (hk : IdleInv s la q) (hs : step sp s e = some s1) :
    IdleInv s1 (if isActivity s s1 e then e.now else la)
      (if isIdle s1.st then
        (if isActivity s s1 e then some e.now else some (q.getD e.now))
      else none) := by
  rcases step_idle_cases sp s s1 e hinv hv hs with h | ⟨hst, hact⟩ | ⟨hact, htime⟩
  · constructor
    · intro hi; simp [h] at hi
    · intro hi; simp [h] at hi
    · intro _; simp [h]
  · constructor
    · intro hi
      rw [hst] at hi ⊢
      simp only [hact, Bool.false_eq_true, if_false]
      exact hk.last hi
    · intro hi
      have hi0 : isIdle s.st = true := by rw [← hst]; exact hi
      simp only [hi, if_true, hact, Bool.false_eq_true, if_false, hk.quiet hi0, Option.getD_some,
        hst]
      simp only [hi0, if_true]
    · intro hi
      simp [hi]
  · constructor
    · intro hi
      simp only [hact, if_true]
      exact htime hi
    · intro hi
      simp only [hi, hact, if_true, htime hi]
    · intro hi
      simp [hi]

theorem IdleInv_run (sp : Bool) (es : List Event) :
    ∀ (s s1 : Sys) (la : Int) (q : Option Int), (∀ e ∈ es, e.valid) → Inv s →
      IdleInv s la q → run sp s es = some s1 →
      IdleInv s1 (lastActivity sp s la es) (quietSince sp s q es) := by
  induction es with
  | nil =>
    intro s s1 la q _ _ hk hs
    simp only [run, Option.some.injEq] at hs
    subst hs
    exact hk
  | cons e es ih =>
    intro s s1 la q hv hinv hk hs
    simp only [run] at hs
    cases hstep : step sp s e with
    | none => simp [hstep] at hs
    | some s2 =>
      simp only [hstep, Option.some_bind] at hs
      rw [lastActivity_cons sp s s2 la e es hstep, quietSince_cons sp s s2 q e es hstep]
      have hve := hv e (List.mem_cons_self _ _)
      exact ih s2 s1 _ _ (fun x hx => hv x (List.mem_cons_of_mem _ hx))
        (Inv_step sp s s2 e hve hinv hstep) (IdleInv_step sp s s2 la q e hinv hve hk hstep) hs

theorem IdleInv_init (t0 : Int) : IdleInv (Sys.init t0) t0 (some t0) :=
  ⟨fun _ => rfl, fun _ => rfl, fun h => by simp [Sys.init, State.init, isIdle] at h⟩

/-- C11 (idle detection): in every state reached from program start (where
`last_exit_time` is the start time `t0`) by timed arrivals, admissions and
releases of requesters with category 1 or 2, if nobody is inside and the queue
is empty then `last_exit_time` is the clock reading of the most recent
admission or release, or `t0` when there was none; and at every clock reading
`now` the inactivity test with `INACTIVITY_TIMEOUT` is true exactly when
nobody has been inside and the queue has been empty, with no admission and no
release, since a clock reading `q` with `now - q ≥ INACTIVITY_TIMEOUT`. -/
theorem idle_detection (spurious : Bool) (t0 : Int) (es : List Event) (s : Sys)
    (hv : ∀ e ∈ es, e.valid) (hr : run spurious (Sys.init t0) es = some s) :
    (isIdle s.st = true →
        s.st.last_exit_time = lastActivity spurious (Sys.init t0) t0 es) ∧
      ∀ now : Int,
        inactivity_check INACTIVITY_TIMEOUT now s.st = true ↔
          ∃ q : Int, quietSince spurious (Sys.init t0) (some t0) es = some q ∧
            now - q ≥ INACTIVITY_TIMEOUT := by
  have hk := IdleInv_run spurious es (Sys.init t0) s t0 (some t0) hv (Inv_init t0)
    (IdleInv_init t0) hr
  refine ⟨hk.last, fun now => ?_⟩
  have hsplit : inactivity_check INACTIVITY_TIMEOUT now s.st = true ↔
      (now - s.st.last_exit_time ≥ INACTIVITY_TIMEOUT ∧ isIdle s.st = true) := by
    simp only [inactivity_check, isIdle, Bool.and_eq_true, decide_eq_true_eq]
    constructor
    · rintro ⟨⟨⟨h1, h2⟩, h3⟩, h4⟩
      exact ⟨h1, ⟨h2, h3⟩, h4⟩
    · rintro ⟨h1, ⟨h2, h3⟩, h4⟩
      exact ⟨⟨⟨h1, h2⟩, h3⟩, h4⟩
  rw [hsplit]
  constructor
  · rintro ⟨h1, hi⟩
    exact ⟨s.st.last_exit_time, hk.quiet hi, h1⟩
  · rintro ⟨q, hq, h1⟩
    cases hi : isIdle s.st
    · rw [hk.busy hi] at hq
      exact absurd hq (by simp)
    · have := hk.quiet hi
      rw [hq, Option.some.injEq] at this
      rw [← this]
      exact ⟨h1, rfl⟩

/-- Witness of C11: program start at 0, a man arrives at 3 and leaves at 5; the
inactivity test is false at 6 and true at 7. -/
theorem idle_detection_witness :
    run false (Sys.init 0) idleTrace = some (afterTrace false 0 idleTrace) ∧
      isIdle (afterTrace false 0 idleTrace).st = true ∧
      (afterTrace false 0 idleTrace).st.last_exit_time = 5 ∧
      lastActivity false (Sys.init 0) 0 idleTrace = 5 ∧
      quietSince false (Sys.init 0) (some 0) idleTrace = some 5 ∧
      inactivity_check INACTIVITY_TIMEOUT 6 (afterTrace false 0 idleTrace).st = false ∧
      inactivity_check INACTIVITY_TIMEOUT 7 (afterTrace false 0 idleTrace).st = true ∧
      (afterTrace false 0 idleTrace).st.last_exit_time =
        lastActivity false (Sys.init 0) 0 idleTrace :=
  ⟨rfl, by decide, by decide, by decide, by decide, by decide, by decide,
    (idle_detection false 0 idleTrace _ (by decide) rfl).1 (by decide)⟩

/-! ## Wake-ups -/

theorem getElem?_lt_length (l : List Thread) (t : Nat) (th : Thread) (h : l[t]? = some th) :
    t < l.length := by
  by_contra hge
  rw [List.getElem?_eq_none (by omega)] at h
  simp at h

/-- Without spurious wake-ups, a suspended thread that no broadcast has reached
stays so through every transition except a `leave_bathroom` that broadcasts,
whatever the loop guard says for it. -/
theorem unsignalled_waiter_stays (s s1 : Sys) (e : Event) (t : Nat) (th : Thread)
    (hth : s.threads[t]? = some th) (hph : th.phase = .waiting false)
    (hs : step false s e = some s1) :
    (∃ (now : Int) (t1 : Nat) (th1 : Thread), e = .leave now t1 ∧
        s.threads[t1]? = some th1 ∧ (leave_bathroom th1.gender now s.st).2 = true) ∨
      s1.threads[t]? = some th := by
  have hlt := getElem?_lt_length _ _ _ hth
  cases e with
  | arrive now id g =>
    right
    cases hc : wait_condition g (enqueue id g s.st)
    · simp only [step, enter_bathroom, enter_bathroom_resume, hc, Bool.false_eq_true, if_false,
        Option.some.injEq] at hs
      subst hs
      simp only [List.getElem?_append_left hlt, hth]
    · simp only [step, enter_bathroom, enter_bathroom_resume, hc, if_true,
        Option.some.injEq] at hs
      subst hs
      simp only [List.getElem?_append_left hlt, hth]
  | wake now t1 =>
    right
    simp only [step] at hs
    cases ht1 : s.threads[t1]? with
    | none => simp [ht1] at hs
    | some th1 =>
      simp only [ht1] at hs
      have hne : t1 ≠ t := by
        intro heq
        subst heq
        rw [hth, Option.some.injEq] at ht1
        subst ht1
        simp [hph] at hs
      cases hp1 : th1.phase with
      | inside => simp [hp1] at hs
      | done => simp [hp1] at hs
      | waiting sig =>
        simp only [hp1] at hs
        cases sig with
        | false => simp at hs
        | true =>
          simp only [Bool.or_true, if_true] at hs
          cases hc : wait_condition th1.gender s.st
          · simp only [enter_bathroom_resume, hc, Bool.false_eq_true, if_false,
              Option.some.injEq] at hs
            subst hs
            simp only [List.getElem?_set, hne, if_false, hth]
          · simp only [enter_bathroom_resume, hc, if_true, Option.some.injEq] at hs
            subst hs
            simp only [List.getElem?_set, hne, if_false, hth]
  | leave now t1 =>
    simp only [step] at hs
    cases ht1 : s.threads[t1]? with
    | none => simp [ht1] at hs
    | some th1 =>
      simp only [ht1] at hs
      by_cases hp1 : th1.phase = .inside
      · simp only [hp1, if_true, Option.some.injEq] at hs
        subst hs
        have hne : t1 ≠ t := by
          intro heq
          subst heq
          rw [hth, Option.some.injEq] at ht1
          subst ht1
          rw [hph] at hp1
          exact absurd hp1 (by simp)
        cases hb : (leave_bathroom th1.gender now s.st).2
        · right
          simp only [Bool.false_eq_true, if_false, List.getElem?_set, hne, hth]
        · left
          exact ⟨now, t1, th1, rfl, ht1, hb⟩
      · simp [hp1] at hs

/-- C17 fails on `lostWakeupTrace` (no spurious wake-up).  After three men are
inside and the man with id 4 is suspended at the head of the queue, a man
leaves at 4: `men_in_bathroom` is 2 and nobody broadcasts.  From then on the
loop guard for category 1 is false whenever two men are inside, but the man
with id 4 stays suspended and cannot run (`wake` is not enabled), while the men
with ids 5 and 6 are admitted on arrival; were he to run he would be admitted. -/
theorem lost_wakeup_on_capacity :
    (∀ e ∈ lostWakeupTrace, e.valid) ∧
      (run false (Sys.init 0) (lostWakeupTrace.take 4)).map observe =
        some ⟨[.inside, .inside, .inside, .waiting false], 3, 0, [⟨4, 1⟩], true, true⟩ ∧
      (leave_bathroom 1 4 (afterTrace false 0 (lostWakeupTrace.take 4)).st).2 = false ∧
      (run false (Sys.init 0) (lostWakeupTrace.take 5)).map observe =
        some ⟨[.done, .inside, .inside, .waiting false], 2, 0, [⟨4, 1⟩], false, true⟩ ∧
      (run false (Sys.init 0) (lostWakeupTrace.take 5 ++ [.wake 5 3])).isSome = false ∧
      (run true (Sys.init 0) (lostWakeupTrace.take 5 ++ [.wake 5 3])).map observe =
        some ⟨[.done, .inside, .inside, .inside], 3, 0, [], true, true⟩ ∧
      (run false (Sys.init 0) (lostWakeupTrace.take 7)).map observe =
        some ⟨[.done, .done, .inside, .waiting false, .inside], 2, 0, [⟨5, 1⟩],
          false, true⟩ ∧
      (run false (Sys.init 0) lostWakeupTrace).map observe =
        some ⟨[.done, .done, .done, .waiting false, .inside, .inside], 2, 0, [⟨6, 1⟩],
          false, true⟩ := by
  refine ⟨?_, ?_, ?_, ?_, ?_, ?_, ?_, ?_⟩ <;> decide

theorem run_append (sp : Bool) (a b : List Event) :
    ∀ s : Sys, run sp s (a ++ b) = (run sp s a).bind fun s1 => run sp s1 b := by
  induction a with
  | nil => intro s; rfl
  | cons e a ih =>
    intro s
    simp only [List.cons_append, run]
    cases step sp s e with
    | none => rfl
    | some s1 => exact ih s1

theorem front_of_queue_congr (s s1 : State) (h1 : s1.waiting_queue = s.waiting_queue)
    (h2 : s1.queue_front = s.queue_front) (h3 : s1.queue_size = s.queue_size) :
    front_of_queue s1 = front_of_queue s := by
  simp only [front_of_queue, h1, h2, h3]

theorem front_eq_head (s : State) (hwf : QueueWF s) (hpos : 0 < s.queue_size) :
    (contents s).head? = some (front_of_queue s) := by
  rw [contents_dequeue s hwf hpos, List.head?_cons]

theorem leave_no_broadcast (now : Int) (s : State) (h : s.men_in_bathroom = 3) :
    (leave_bathroom 1 now s).2 = false := by
  simp [leave_bathroom, h]

theorem Starving_cycle (s : Sys) (k : Nat) (h : Starving s k) :
    ∃ s1 : Sys,
      run false s [.arrive 5 ((k : Int) + 1) 1, .leave 6 k] = some s1 ∧ Starving s1 (k + 1) := by
  obtain ⟨hm, hw, hwf, hsz, hfront, hlen, hth, hk⟩ := h
  have hlt : s.st.queue_size < MAX_QUEUE_SIZE := by rw [hsz]; decide
  have hpos : 0 < s.st.queue_size := by rw [hsz]; decide
  -- the state after `enqueue`
  have hwf1 := QueueWF_enqueue ((k : Int) + 1) 1 s.st hwf
  have hc1 := contents_enqueue ((k : Int) + 1) 1 s.st hwf hlt
  have hsz1 : (enqueue ((k : Int) + 1) 1 s.st).queue_size = 2 := by
    simp [enqueue, hsz, MAX_QUEUE_SIZE]
  have hpos1 : 0 < (enqueue ((k : Int) + 1) 1 s.st).queue_size := by rw [hsz1]; decide
  have hlen0 : (contents s.st).length = 1 := by rw [contents_length, hsz]; rfl
  obtain ⟨p0, hp0⟩ : ∃ p0, contents s.st = [p0] := List.length_eq_one.mp hlen0
  have hhead0 := front_eq_head s.st hwf hpos
  rw [hp0, List.head?_cons, Option.some.injEq] at hhead0
  have hhead1 := front_eq_head _ hwf1 hpos1
  rw [hc1, hp0] at hhead1
  simp only [List.singleton_append, List.head?_cons, Option.some.injEq] at hhead1
  have hguard : wait_condition 1 (enqueue ((k : Int) + 1) 1 s.st) = false := by
    rw [wait_condition_false_iff 1 (Or.inl rfl)]
    refine ⟨?_, ?_, ?_⟩
    · simp [oppositeCount, enqueue_women, hw]
    · simp [count, enqueue_men, hm, MAX_CAPACITY]
    · rw [← hhead1, hhead0]; exact hfront
  -- the state after the admission
  have hcE := contents_entry 1 _ hwf1 hpos1
  rw [hc1, hp0, ← hhead1] at hcE
  simp only [List.singleton_append, List.cons.injEq, true_and] at hcE
  have hwf2 := QueueWF_entry 1 _ hwf1
  have hsz2 : (enter_bathroom_entry 1 (enqueue ((k : Int) + 1) 1 s.st)).2.queue_size = 1 := by
    rw [(entry_queue 1 _).2]
    simp [dequeue, hpos1, hsz1]
  have hpos2 : 0 < (enter_bathroom_entry 1 (enqueue ((k : Int) + 1) 1 s.st)).2.queue_size := by
    rw [hsz2]; decide
  have hhead2 := front_eq_head _ hwf2 hpos2
  rw [← hcE, List.head?_cons, Option.some.injEq] at hhead2
  have hm2 :
      (enter_bathroom_entry 1 (enqueue ((k : Int) + 1) 1 s.st)).2.men_in_bathroom = 3 := by
    rw [entry_men, enqueue_men, hm]; rfl
  have hw2 :
      (enter_bathroom_entry 1 (enqueue ((k : Int) + 1) 1 s.st)).2.women_in_bathroom = 0 := by
    rw [entry_women, enqueue_women, hw]; rfl
  -- the state after the release
  obtain ⟨q1, q2, q3⟩ :=
    leave_queue 1 6 (enter_bathroom_entry 1 (enqueue ((k : Int) + 1) 1 s.st)).2
  have hnb := leave_no_broadcast 6 _ hm2
  have hstep1 : step false s (.arrive 5 ((k : Int) + 1) 1) =
      some { st := (enter_bathroom_entry 1 (enqueue ((k : Int) + 1) 1 s.st)).2
             threads := s.threads ++ [⟨(k : Int) + 1, 1, .inside, true⟩]
             admissions := s.admissions ++
               [(s.threads.length, (enter_bathroom_entry 1 (enqueue ((k : Int) + 1) 1 s.st)).1)] } := by
    simp only [step, enter_bathroom, enter_bathroom_resume, hguard, Bool.false_eq_true, if_false,
      hlt, decide_True]
  have hget : (s.threads ++ [(⟨(k : Int) + 1, 1, .inside, true⟩ : Thread)])[k]? =
      some ⟨(k : Int) + 1, 1, .inside, true⟩ := by
    rw [← hlen]
    simp
  refine ⟨{ st := (leave_bathroom 1 6 (enter_bathroom_entry 1 (enqueue ((k : Int) + 1) 1 s.st)).2).1
            threads := (s.threads ++ [(⟨(k : Int) + 1, 1, .inside, true⟩ : Thread)]).set k
              (⟨(k : Int) + 1, 1, .done, true⟩ : Thread)
            admissions := s.admissions ++
              [(s.threads.length, (enter_bathroom_entry 1 (enqueue ((k : Int) + 1) 1 s.st)).1)] },
    ?_, ?_⟩
  · simp only [run]
    rw [hstep1]
    simp only [Option.some_bind, step, hget, if_true, hnb, Bool.false_eq_true, if_false]
  · refine ⟨?_, ?_, QueueWF_congr _ _ q2 q3 hwf2, ?_, ?_, ?_, ?_, by omega⟩
    · rw [leave_men, hm2]; rfl
    · rw [leave_women, hw2]; rfl
    · rw [q3, hsz2]
    · rw [front_of_queue_congr _ _ q1 q2 q3, ← hhead2]
    · simp [hlen]
    · have hne : k ≠ 3 := by omega
      have h3 : 3 < s.threads.length := by omega
      simp only [List.getElem?_set, hne, if_false, List.getElem?_append_left h3, hth]

theorem Starving_cycles (n : Nat) :
    ∀ (s : Sys) (k : Nat), Starving s k →
      ∃ s1 : Sys, run false s (starveCycles k n) = some s1 ∧ Starving s1 (k + n) := by
  induction n with
  | zero => intro s k h; exact ⟨s, rfl, h⟩
  | succ n ih =>
    intro s k h
    obtain ⟨s1, hr1, h1⟩ := Starving_cycle s k h
    obtain ⟨s2, hr2, h2⟩ := ih s1 (k + 1) h1
    have hidx : k + 1 + n = k + (n + 1) := by omega
    refine ⟨s2, ?_, hidx ▸ h2⟩
    have happ := run_append false [.arrive 5 ((k : Int) + 1) 1, .leave 6 k]
      (starveCycles (k + 1) n) s
    simp only [List.cons_append, List.nil_append] at happ
    show run false s (.arrive 5 ((k : Int) + 1) 1 :: .leave 6 k :: starveCycles (k + 1) n) = _
    rw [happ, hr1, Option.some_bind, hr2]

theorem starveCycles_length (n : Nat) : ∀ k : Nat, (starveCycles k n).length = 2 * n := by
  induction n with
  | zero => intro k; rfl
  | succ n ih =>
    intro k
    simp only [starveCycles, List.length_cons, ih (k + 1)]
    omega

theorem starveCycles_valid (n : Nat) : ∀ k : Nat, ∀ e ∈ starveCycles k n, e.valid := by
  induction n with
  | zero => intro k e he; simp [starveCycles] at he
  | succ n ih =>
    intro k e he
    simp only [starveCycles, List.mem_cons] at he
    rcases he with rfl | rfl | he
    · exact Or.inl rfl
    · trivial
    · exact ih (k + 1) e he

theorem Starving_guard (s : Sys) (k : Nat) (h : Starving s k) :
    wait_condition 1 s.st = false := by
  obtain ⟨hm, hw, _, _, hfront, _⟩ := h
  rw [wait_condition_false_iff 1 (Or.inl rfl)]
  refine ⟨?_, ?_, hfront⟩
  · simp [oppositeCount, hw]
  · simp [count, hm, MAX_CAPACITY]

/-- No bound for C17: for every `n` the execution `starveTrace n` (no spurious
wake-up) runs; its first five events leave the man with id 4 suspended at the
head of the queue with two men inside, and after `n` further arrivals, each
admitted at once, and `n` releases he is still suspended, with no broadcast
pending, while the loop guard for category 1 is false. -/
theorem starvation_unbounded (n : Nat) :
    ∃ s : Sys, run false (Sys.init 0) (starveTrace n) = some s ∧
      (starveTrace n).length = 5 + 2 * n ∧ (∀ e ∈ starveTrace n, e.valid) ∧
      s.threads[3]? = some ⟨4, 1, .waiting false, true⟩ ∧
      wait_condition 1 s.st = false := by
  have hbase : run false (Sys.init 0) (lostWakeupTrace.take 5) =
      some (afterTrace false 0 (lostWakeupTrace.take 5)) := rfl
  have hstart : Starving (afterTrace false 0 (lostWakeupTrace.take 5)) 4 := by
    refine ⟨?_, ?_, ?_, ?_, ?_, ?_, ?_, ?_⟩ <;> decide
  obtain ⟨s, hr, hs⟩ := Starving_cycles n _ 4 hstart
  refine ⟨s, ?_, ?_, ?_, hs.2.2.2.2.2.2.1, Starving_guard s _ hs⟩
  · unfold starveTrace
    rw [run_append, hbase, Option.some_bind, hr]
  · unfold starveTrace
    rw [List.length_append, starveCycles_length]
    rfl
  · intro e he
    unfold starveTrace at he
    rcases List.mem_append.mp he with h1 | h2
    · have hv : ∀ x ∈ lostWakeupTrace.take 5, x.valid := by decide
      exact hv e h1
    · exact starveCycles_valid n 4 e h2

end UnisexBathroom
